import Mathlib

/-!
Verification of the envoy-tools configuration-dependency extraction and
graph-rendering engine (`parseXdsRelationship`, `generateGraph`, `visualize`)
and the status summarizer (`parseConfigStatus_v2`, `printOutResponse_v2`).

The Go source decodes a JSON snapshot into `map[string]interface{}` values
and walks it with single-value type assertions (`x.(T)`), which panic at
runtime when the value has a different shape.  We embed:

* decoded JSON values as an inductive `JValue`; Go map indexing `m[k]`
  (which yields the nil interface for a missing key) as `jLookup`, and the
  comma-ok form `v, ok := m[k]` as `jFind`;
* a Go type assertion as a function into `Except GoFail _`, where
  `GoFail.panic` models a runtime panic (Go's message names the dynamic and
  expected Go types, e.g. "interface conversion: interface is nil, not
  string"; it never mentions the xDS category being processed) and
  `GoFail.goError` models an ordinary returned `error` value;
* `github.com/emirpasic/gods/sets/treeset` with a string comparator as a
  strictly ascending `List String` with ordered insertion `tsAdd`
  (`Values()` is the list itself);
* a Go `map[string]V` as an association list with unique keys; writes are
  `mapUpd`; because Go randomizes map iteration order, every place the
  source ranges over a map is parameterized by an explicit iteration order
  (a permutation of the keys), applied with `goIter`.
-/

/-- Decoded JSON value, the result of Go `json.Unmarshal` into `interface \x7b\x7d`. -/
inductive JValue where
  | str (s : String)
  | num (n : Int)
  | jbool (b : Bool)
  | null
  | arr (elems : List JValue)
  | obj (fields : List (String × JValue))

/-- A decoded JSON object (`map[string]interface \x7b\x7d`). -/
abbrev JObj := List (String × JValue)

/-- Go map indexing `m[k]`: the nil interface (here `JValue.null`) when the key is absent. -/
def jLookup (o : JObj) (k : String) : JValue :=
  match o.find? (fun p => p.1 == k) with
  | some p => p.2
  | none => JValue.null

/-- Go comma-ok map indexing `v, ok := m[k]`. -/
def jFind (o : JObj) (k : String) : Option JValue :=
  (o.find? (fun p => p.1 == k)).map (fun p => p.2)

/-- Outcome of a fallible Go computation: a runtime panic (from a failed
type assertion or out-of-range slice) or an ordinary returned `error`. -/
inductive GoFail where
  | panic (msg : String)
  | goError (msg : String)
deriving DecidableEq, Repr

/-- Message of a failed assertion `x.(map[string]interface \x7b\x7d)`. -/
def msgNotObj : String := "interface conversion: interface is not map[string]interface"

/-- Message of a failed assertion `x.([]interface \x7b\x7d)`. -/
def msgNotArr : String := "interface conversion: interface is not []interface"

/-- Message of a failed assertion `x.(string)`. -/
def msgNotStr : String := "interface conversion: interface is not string"

/-- Go type assertion `x.(map[string]interface \x7b\x7d)`. -/
def asObj : JValue → Except GoFail JObj
  | JValue.obj o => .ok o
  | _ => .error (.panic msgNotObj)

/-- Go type assertion `x.([]interface \x7b\x7d)`. -/
def asArr : JValue → Except GoFail (List JValue)
  | JValue.arr a => .ok a
  | _ => .error (.panic msgNotArr)

/-- Go type assertion `x.(string)`. -/
def asStr : JValue → Except GoFail String
  | JValue.str s => .ok s
  | _ => .error (.panic msgNotStr)

/-- Explicit bind on `Except GoFail`, mirroring Go's straight-line
evaluation where a panic aborts the remainder. -/
def ebind (x : Except GoFail α) (f : α → Except GoFail β) : Except GoFail β :=
  match x with
  | .error e => .error e
  | .ok a => f a

/-- Go map assignment `m[k] = v` on the association-list model:
replace the binding if the key exists, append otherwise. -/
def mapUpd (m : List (String × α)) (k : String) (v : α) : List (String × α) :=
  match m with
  | [] => [(k, v)]
  | (k0, v0) :: rest => if k0 == k then (k, v) :: rest else (k0, v0) :: mapUpd rest k v

/-- Association-list lookup (the content of a Go map as a partial function). -/
def alookup (m : List (String × α)) (k : String) : Option α :=
  (m.find? (fun p => p.1 == k)).map (fun p => p.2)

/-- `treeset.Add` for `NewWithStringComparator`: ordered insertion into a
strictly ascending list, skipping an element already present. -/
def tsAdd (s : List String) (x : String) : List String :=
  match s with
  | [] => [x]
  | y :: ys => if x < y then x :: y :: ys else if x == y then y :: ys else y :: tsAdd ys x

/-- Mutable state of `parseXdsRelationship`: the five maps `lds`, `rds`,
`cds`, `ldsToRds`, `rdsToCds` built up during the scan. -/
structure PState where
  lds : List (String × String)
  rds : List (String × String)
  cds : List (String × String)
  ldsToRds : List (String × List String)
  rdsToCds : List (String × List String)
deriving DecidableEq, Repr

/-- `parseXdsRelationship` output: `GraphData` with
`nodes = [lds, rds, cds]` and `relations = [ldsToRds, rdsToCds]`. -/
structure GraphData where
  nodes : List (List (String × String))
  relations : List (List (String × List String))
deriving DecidableEq, Repr

/-- Inner loop over `filterchain["filters"]`: each filter must expose
`typedConfig.rds.routeConfigName` (asserted, panicking otherwise), which is
added to the listener's route-table set. -/
def scanFilters : List JValue → List String → Except GoFail (List String)
  | [], s => .ok s
  | f :: rest, s =>
    ebind (asObj f) fun fo =>
    ebind (asObj (jLookup fo "typedConfig")) fun tco =>
    ebind (asObj (jLookup tco "rds")) fun ro =>
    ebind (asStr (jLookup ro "routeConfigName")) fun rdsName =>
    scanFilters rest (tsAdd s rdsName)

/-- Loop over `detail["filterChains"]`. -/
def scanFilterChains : List JValue → List String → Except GoFail (List String)
  | [], s => .ok s
  | c :: rest, s =>
    ebind (asObj c) fun co =>
    ebind (asArr (jLookup co "filters")) fun filters =>
    ebind (scanFilters filters s) fun s1 =>
    scanFilterChains rest s1

/-- One element of a listeners array at index `idx`: registers the node
under id `"LDS" ++ idx` and scans its filter chains for route references. -/
def processListener (idx : Nat) (listener : JValue) (st : PState) : Except GoFail PState :=
  ebind (asObj listener) fun lo =>
  ebind (asObj (jLookup lo "activeState")) fun aso =>
  ebind (asObj (jLookup aso "listener")) fun detail =>
  ebind (asStr (jLookup detail "name")) fun name =>
  let st1 : PState := { st with lds := mapUpd st.lds name ("LDS" ++ Nat.repr idx) }
  ebind (asArr (jLookup detail "filterChains")) fun chains =>
  ebind (scanFilterChains chains []) fun rdsSet =>
  .ok { st1 with ldsToRds := mapUpd st1.ldsToRds name rdsSet }

/-- `for idx, listener := range listeners.([]interface \x7b\x7d)`. -/
def processListeners (idx : Nat) : List JValue → PState → Except GoFail PState
  | [], st => .ok st
  | l :: rest, st =>
    ebind (processListener idx l st) fun st1 =>
    processListeners (idx + 1) rest st1

/-- `for _, listeners := range value.(map[string]interface \x7b\x7d)`:
every field of the `listenerConfig` object is asserted to be an array and
scanned; the index restarts at 0 for each field. -/
def processListenerGroups : JObj → PState → Except GoFail PState
  | [], st => .ok st
  | (_, listeners) :: rest, st =>
    ebind (asArr listeners) fun ls =>
    ebind (processListeners 0 ls st) fun st1 =>
    processListenerGroups rest st1

/-- The `case "listenerConfig"` branch. -/
def processListenerConfig (value : JValue) (st : PState) : Except GoFail PState :=
  ebind (asObj value) fun o => processListenerGroups o st

/-- Loop over `weightedClusters["clusters"]`, adding each `name`. -/
def scanWeighted : List JValue → List String → Except GoFail (List String)
  | [], s => .ok s
  | c :: rest, s =>
    ebind (asObj c) fun co =>
    ebind (asStr (jLookup co "name")) fun n =>
    scanWeighted rest (tsAdd s n)

/-- One element of a virtual host's `routes` array: its `route` action
either carries `weightedClusters` (comma-ok check) or a single `cluster`. -/
def processRoute (vr : JValue) (s : List String) : Except GoFail (List String) :=
  ebind (asObj vr) fun vro =>
  ebind (asObj (jLookup vro "route")) fun virtualRoute =>
  match jFind virtualRoute "weightedClusters" with
  | some wc =>
    ebind (asObj wc) fun wco =>
    ebind (asArr (jLookup wco "clusters")) fun cl =>
    scanWeighted cl s
  | none =>
    ebind (asStr (jLookup virtualRoute "cluster")) fun n =>
    .ok (tsAdd s n)

/-- Loop over a virtual host's `routes`. -/
def processRoutes : List JValue → List String → Except GoFail (List String)
  | [], s => .ok s
  | r :: rest, s =>
    ebind (processRoute r s) fun s1 =>
    processRoutes rest s1

/-- Loop over `routeConfig["virtualHosts"]`. -/
def processVirtualHosts : List JValue → List String → Except GoFail (List String)
  | [], s => .ok s
  | vh :: rest, s =>
    ebind (asObj vh) fun vho =>
    ebind (asArr (jLookup vho "routes")) fun rts =>
    ebind (processRoutes rts s) fun s1 =>
    processVirtualHosts rest s1

/-- One element of a route-table array at index `idx`: registers the node
under id `"RDS" ++ idx` and collects referenced cluster names. -/
def processRouteTable (idx : Nat) (route : JValue) (st : PState) : Except GoFail PState :=
  ebind (asObj route) fun ro =>
  ebind (asObj (jLookup ro "routeConfig")) fun routeConfig =>
  ebind (asStr (jLookup routeConfig "name")) fun name =>
  let st1 : PState := { st with rds := mapUpd st.rds name ("RDS" ++ Nat.repr idx) }
  ebind (asArr (jLookup routeConfig "virtualHosts")) fun vhs =>
  ebind (processVirtualHosts vhs []) fun cdsSet =>
  .ok { st1 with rdsToCds := mapUpd st1.rdsToCds name cdsSet }

/-- `for idx, route := range routes.([]interface \x7b\x7d)`. -/
def processRouteTables (idx : Nat) : List JValue → PState → Except GoFail PState
  | [], st => .ok st
  | r :: rest, st =>
    ebind (processRouteTable idx r st) fun st1 =>
    processRouteTables (idx + 1) rest st1

/-- Loop over the fields of the `routeConfig` object. -/
def processRouteGroups : JObj → PState → Except GoFail PState
  | [], st => .ok st
  | (_, routes) :: rest, st =>
    ebind (asArr routes) fun rs =>
    ebind (processRouteTables 0 rs st) fun st1 =>
    processRouteGroups rest st1

/-- The `case "routeConfig"` branch. -/
def processRouteConfig (value : JValue) (st : PState) : Except GoFail PState :=
  ebind (asObj value) fun o => processRouteGroups o st

/-- One element of a clusters array at index `idx`: registers the node
under id `"CDS" ++ idx`; clusters are sinks, no references are collected. -/
def processClusterEntry (idx : Nat) (cluster : JValue) (st : PState) : Except GoFail PState :=
  ebind (asObj cluster) fun co =>
  ebind (asObj (jLookup co "cluster")) fun detail =>
  ebind (asStr (jLookup detail "name")) fun name =>
  .ok { st with cds := mapUpd st.cds name ("CDS" ++ Nat.repr idx) }

/-- `for idx, cluster := range clusters.([]interface \x7b\x7d)`. -/
def processClusters (idx : Nat) : List JValue → PState → Except GoFail PState
  | [], st => .ok st
  | c :: rest, st =>
    ebind (processClusterEntry idx c st) fun st1 =>
    processClusters (idx + 1) rest st1

/-- Loop over the fields of the `clusterConfig` object. -/
def processClusterGroups : JObj → PState → Except GoFail PState
  | [], st => .ok st
  | (_, clusters) :: rest, st =>
    ebind (asArr clusters) fun cs =>
    ebind (processClusters 0 cs st) fun st1 =>
    processClusterGroups rest st1

/-- The `case "clusterConfig"` branch. -/
def processClusterConfig (value : JValue) (st : PState) : Except GoFail PState :=
  ebind (asObj value) fun o => processClusterGroups o st

/-- `for key, value := range xds.(map[string]interface \x7b\x7d)` with the
`"status"` skip and the three-way `switch key`; unmatched keys are skipped. -/
def processXdsEntries : JObj → PState → Except GoFail PState
  | [], st => .ok st
  | (key, value) :: rest, st =>
    ebind
      (if key == "status" then .ok st
       else if key == "listenerConfig" then processListenerConfig value st
       else if key == "routeConfig" then processRouteConfig value st
       else if key == "clusterConfig" then processClusterConfig value st
       else .ok st)
      fun st1 => processXdsEntries rest st1

/-- `for _, xds := range configMap["xdsConfig"].([]interface \x7b\x7d)`. -/
def processXdsList : List JValue → PState → Except GoFail PState
  | [], st => .ok st
  | xds :: rest, st =>
    ebind (asObj xds) fun entries =>
    ebind (processXdsEntries entries st) fun st1 =>
    processXdsList rest st1

/-- One element of the top-level `config` array (one per-client entry). -/
def processConfig (config : JValue) (st : PState) : Except GoFail PState :=
  ebind (asObj config) fun configMap =>
  ebind (asArr (jLookup configMap "xdsConfig")) fun xdsArr =>
  processXdsList xdsArr st

/-- `for _, config := range data["config"].([]interface \x7b\x7d)`. -/
def processConfigs : List JValue → PState → Except GoFail PState
  | [], st => .ok st
  | c :: rest, st =>
    ebind (processConfig c st) fun st1 =>
    processConfigs rest st1

/-- The empty starting state (the five freshly made maps). -/
def emptyPState : PState := ⟨[], [], [], [], []⟩

/-- `parseXdsRelationship`, starting from the already-unmarshalled
top-level JSON object (`json.Unmarshal` itself, whose failure is the one
ordinary returned error in the Go function, is outside this model). -/
def parseXdsRelationship (data : JObj) : Except GoFail GraphData :=
  ebind (asArr (jLookup data "config")) fun configs =>
  ebind (processConfigs configs emptyPState) fun st =>
  .ok ⟨[st.lds, st.rds, st.cds], [st.ldsToRds, st.rdsToCds]⟩

/-!
## Renderer (`generateGraph`)

The dot output is built through the external `gographviz` library:
`AddNode`/`AddEdge` append statements (AddNode skips a name already added),
and `graph.String()` prints them in insertion order.  We model the emitted
statement lists and a line-per-statement serialization preserving that
order.  The source ranges over the Go maps `data.nodes[i]` and
`data.relations[i]`; since Go randomizes map iteration order, each map's
key order is an explicit argument (legitimate iff it is a permutation of
the map's keys).
-/

/-- The name wrapping applied to every node and edge endpoint:
backslash-quote around the raw name. -/
def escName (s : String) : String := "\\\"" ++ s ++ "\\\""

/-- `colors := map[string]string\x7b"LDS": ..., "RDS": ..., "CDS": ...\x7d`. -/
def colors : List (String × String) :=
  [("LDS", "#4285F4"), ("RDS", "#FBBC04"), ("CDS", "#34A853")]

/-- Go byte-slicing `node[0:3]` (labels here are ASCII, so bytes = chars). -/
def take3 (s : String) : String := String.mk (s.data.take 3)

/-- `colors[node[0:3]]`: missing key yields the zero value `""`. -/
def colorOf (label : String) : String := (alookup colors (take3 label)).getD ""

/-- One `AddNode` statement with the attribute values from the source. -/
structure NodeStmt where
  name : String
  label : String
  fontcolor : String
  fontname : String
  shape : String
  style : String
  color : String
  fillcolor : String
deriving DecidableEq, Repr

/-- One `AddEdge` statement (always directed). -/
structure EdgeStmt where
  src : String
  dst : String
  penwidth : String
  arrowsize : String
deriving DecidableEq, Repr

/-- The node statement built for map entry `name ↦ label`. -/
def mkNodeStmt (name label : String) : NodeStmt :=
  ⟨escName name, label, "white", "Roboto", "box", "\\\"\"filled,rounded\"\\\"",
    "\\\"" ++ colorOf label ++ "\\\"", "\\\"" ++ colorOf label ++ "\\\""⟩

/-- The edge statement built for `src → dst`. -/
def mkEdgeStmt (src dst : String) : EdgeStmt :=
  ⟨escName src, escName dst, "0.3", "0.3"⟩

/-- Ranging over a Go map in a given key order: each key of the order that
is present yields its binding. -/
def goIter (m : List (String × α)) (order : List String) : List (String × α) :=
  order.filterMap (fun k => (alookup m k).map (fun v => (k, v)))

/-- A legitimate Go iteration order for a map: a permutation of its keys. -/
def ValidOrder (m : List (String × α)) (order : List String) : Prop :=
  order.Perm (m.map Prod.fst)

/-- The node-emission loop body over one map's entries in iteration order:
`node[0:3]` panics when the label is shorter than 3 bytes (evaluated before
`AddNode`), and `AddNode` skips a node name already present. -/
def addNodes : List (String × String) → List NodeStmt → Except GoFail (List NodeStmt)
  | [], acc => .ok acc
  | (name, label) :: rest, acc =>
    if label.data.length < 3 then .error (.panic "slice bounds out of range") else
    let stmt := mkNodeStmt name label
    if acc.any (fun s => s.name == stmt.name) then addNodes rest acc
    else addNodes rest (acc ++ [stmt])

/-- All node statements: the outer loop over `data.nodes` is a slice
(deterministic order); each map is enumerated in its given key order. -/
def allNodes : List (List (String × String) × List String) → List NodeStmt →
    Except GoFail (List NodeStmt)
  | [], acc => .ok acc
  | (m, order) :: rest, acc =>
    ebind (addNodes (goIter m order) acc) fun acc1 =>
    allNodes rest acc1

/-- Edge statements of one relation map in the given source-key iteration
order; for each source, `set.Values()` is enumerated in set order. -/
def relEdges (rel : List (String × List String)) (order : List String) : List EdgeStmt :=
  (goIter rel order).flatMap (fun p => p.2.map (fun dst => mkEdgeStmt p.1 dst))

/-- All edge statements: outer loop over the `data.relations` slice. -/
def allEdges (rels : List (List (String × List String))) (orders : List (List String)) :
    List EdgeStmt :=
  (rels.zip orders).flatMap (fun p => relEdges p.1 p.2)

/-- Serialization of a node statement (one output line). -/
def renderNode (n : NodeStmt) : String :=
  n.name ++ " [ color=" ++ n.color ++ ", fillcolor=" ++ n.fillcolor ++
    ", fontcolor=" ++ n.fontcolor ++ ", fontname=" ++ n.fontname ++
    ", label=" ++ n.label ++ ", shape=" ++ n.shape ++ ", style=" ++ n.style ++ " ];"

/-- Serialization of an edge statement (one output line). -/
def renderEdge (e : EdgeStmt) : String :=
  e.src ++ "->" ++ e.dst ++ " [ arrowsize=" ++ e.arrowsize ++
    ", penwidth=" ++ e.penwidth ++ " ];"

/-- `generateGraph`: a directed graph with `rankdir=LR`, node statements in
map-enumeration order, then edge statements; serialized in that order.
`nodeOrders` and `relOrders` supply the Go map iteration orders. -/
def generateGraph (data : GraphData) (nodeOrders relOrders : List (List String)) :
    Except GoFail String :=
  ebind (allNodes (data.nodes.zip nodeOrders) []) fun ns =>
  let es := allEdges data.relations relOrders
  .ok (String.intercalate "\n"
    (["digraph G", "rankdir=LR;"] ++ ns.map renderNode ++ es.map renderEdge))

/-!
## `visualize`

Order of effects in the source: extract, render, then — unless monitor
mode — open the browser on the rendered text (returning its error if any),
and only then create and write `config_graph.dot`.  The booleans are the
outcomes of the three external calls (`openBrowser`, `os.Create`,
`f.Write`); the second component of the result is the content successfully
written to `config_graph.dot`, if any. -/

def visualize (config : JObj) (monitor : Bool) (nodeOrders relOrders : List (List String))
    (browserOk createOk writeOk : Bool) : Except GoFail Unit × Option String :=
  match parseXdsRelationship config with
  | .error e => (.error e, none)
  | .ok graphData =>
    match generateGraph graphData nodeOrders relOrders with
    | .error e => (.error e, none)
    | .ok dot =>
      if !monitor && !browserOk then (.error (.goError "openBrowser failed"), none)
      else if !createOk then (.error (.goError "create config_graph.dot failed"), none)
      else if !writeOk then (.error (.goError "write config_graph.dot failed"), none)
      else (.ok (), some dot)

/-!
## Status summarizer (`parseConfigStatus_v2`, `printOutResponse_v2`)

`PerXdsConfig` carries at most one of the four config-dump variants
(modelled as presence booleans for `GetClusterConfig() != nil` etc.) and a
status; `status` stands for `GetStatus().String()`.  Output is the list of
printed lines; `%-Ns ` printf verbs become left-padding to width `N`. -/

structure PerXdsConfig where
  status : String
  clusterConfig : Bool
  listenerConfig : Bool
  routeConfig : Bool
  scopedRouteConfig : Bool
deriving DecidableEq, Repr

/-- A client node: `GetId()` and the `"XDS_STREAM_TYPE"` metadata entry. -/
structure ClientNode where
  id : String
  streamType : Option String
deriving DecidableEq, Repr

/-- One element of `response.GetConfig()`. -/
structure ClientConfig where
  node : Option ClientNode
  xdsConfig : List PerXdsConfig
deriving DecidableEq, Repr

/-- The category tag chosen by the if-else chain in `parseConfigStatus_v2`:
cluster, then listener, then route, then scoped-route; `""` when no
variant is populated. -/
def xdsTag (p : PerXdsConfig) : String :=
  if p.clusterConfig then "CDS"
  else if p.listenerConfig then "LDS"
  else if p.routeConfig then "RDS"
  else if p.scopedRouteConfig then "SRDS"
  else ""

/-- The append loop of `parseConfigStatus_v2` with its accumulator. -/
def parseConfigStatusAux (acc : List String) : List PerXdsConfig → List String
  | [] => acc
  | p :: rest =>
    let status := p.status
    let xds := xdsTag p
    if status != "" && xds != "" then
      parseConfigStatusAux (acc ++ [xds ++ "   " ++ status]) rest
    else
      parseConfigStatusAux acc rest

/-- `parseConfigStatus_v2`: one line `"<TAG>   <STATUS>"` per entry with a
non-empty status and a populated variant. -/
def parseConfigStatus_v2 (xdsConfig : List PerXdsConfig) : List String :=
  parseConfigStatusAux [] xdsConfig

/-- `%-ws` left-justified padding (strings here are ASCII). -/
def padR (s : String) (w : Nat) : String :=
  s ++ String.mk (List.replicate (w - s.data.length) ' ')

/-- The header line printed when the response has clients. -/
def headerLine : String :=
  padR "Client ID" 50 ++ " " ++ padR "xDS stream type" 30 ++ " " ++ padR "Config Status" 30 ++ " "

/-- The lines printed for one element of `response.GetConfig()`:
an `N/A` row when there is no xds config but a node is present; otherwise
the id/type columns followed by the status lines from
`parseConfigStatus_v2`, continuation lines carrying empty first columns. -/
def printClient (config : ClientConfig) : List String :=
  let id := match config.node with | some n => n.id | none => ""
  let xdsType := match config.node with | some n => n.streamType.getD "" | none => ""
  match config.xdsConfig with
  | [] =>
    match config.node with
    | some _ => [padR id 50 ++ " " ++ padR xdsType 30 ++ " " ++ padR "N/A" 30 ++ " "]
    | none => []
  | e :: es =>
    match parseConfigStatus_v2 (e :: es) with
    | [] => [padR id 50 ++ " " ++ padR xdsType 30 ++ " "]
    | s0 :: rest =>
      (padR id 50 ++ " " ++ padR xdsType 30 ++ " " ++ padR s0 30 ++ " ") ::
        rest.map (fun s => padR "" 50 ++ " " ++ padR "" 30 ++ " " ++ padR s 30 ++ " ")

/-- `printOutResponse_v2` as its printed summary lines (the detailed config
dump behind `hasXdsConfig` is a separate, external routine). -/
def printOutResponse_v2 (response : List ClientConfig) : List String :=
  if response.isEmpty then ["No xDS clients connected."]
  else headerLine :: response.flatMap printClient

/-! ## Well-formed input builders

JSON shapes that the extractor consumes without panicking, used to state
universal claims about well-formed snapshots. -/

/-- A route action: either a single named cluster or a weighted set. -/
inductive RAction where
  | single (c : String)
  | weighted (cs : List String)

/-- The cluster names an action mentions (weights play no role). -/
def actionClusters : RAction → List String
  | .single c => [c]
  | .weighted cs => cs

/-- One member of a `weightedClusters.clusters` array. -/
def mkWeightedCluster (c : String) : JValue := .obj [("name", .str c)]

/-- One member of a virtual host's `routes` array. -/
def mkVirtualRoute : RAction → JValue
  | .single c => .obj [("route", .obj [("cluster", .str c)])]
  | .weighted cs => .obj [("route", .obj [("weightedClusters",
      .obj [("clusters", .arr (cs.map mkWeightedCluster))])])]

/-- A virtual host holding the given route actions. -/
def mkVirtualHost (acts : List RAction) : JValue :=
  .obj [("routes", .arr (acts.map mkVirtualRoute))]

/-- One member of a route-table array: a named `routeConfig` with the
given virtual hosts. -/
def mkRouteTable (name : String) (vhs : List (List RAction)) : JValue :=
  .obj [("routeConfig", .obj [("name", .str name),
    ("virtualHosts", .arr (vhs.map mkVirtualHost))])]

/-- All cluster names mentioned by a route-table's virtual hosts, in scan
order, duplicates included. -/
def allClusters (vhs : List (List RAction)) : List String :=
  vhs.flatMap (fun acts => acts.flatMap actionClusters)

/-- The reference set a route-table accumulates: ordered insertion of
every mentioned name into the fresh tree set. -/
def routeClusterSet (vhs : List (List RAction)) : List String :=
  List.foldl tsAdd [] (allClusters vhs)

/-- A listener with the given name and an empty `filterChains` array. -/
def mkSimpleListener (name : String) : JValue :=
  .obj [("activeState", .obj [("listener",
    .obj [("name", .str name), ("filterChains", .arr [])])])]

/-- A listener whose detail lacks the `filterChains` field entirely. -/
def mkChainlessListener (name : String) : JValue :=
  .obj [("activeState", .obj [("listener", .obj [("name", .str name)])])]

/-- A listener with one filter chain whose `filters` array is empty. -/
def mkEmptyChainListener (name : String) : JValue :=
  .obj [("activeState", .obj [("listener",
    .obj [("name", .str name),
      ("filterChains", .arr [.obj [("filters", .arr [])]])])])]

/-- A filter whose typed extension payload is not the recognized
HTTP-connection-manager shape (no `rds` field inside `typedConfig`). -/
def mkForeignFilter : JValue :=
  .obj [("typedConfig", .obj [("@type",
    .str "type.googleapis.com/envoy.config.filter.network.tcp_proxy.v2.TcpProxy")])]

/-- A listener whose single filter carries the unrecognized payload. -/
def mkForeignFilterListener (name : String) : JValue :=
  .obj [("activeState", .obj [("listener",
    .obj [("name", .str name),
      ("filterChains", .arr [.obj [("filters", .arr [mkForeignFilter])]])])])]

/-- A filter carrying an HTTP-connection-manager payload referencing the
given route-table name. -/
def mkHcmFilter (rdsName : String) : JValue :=
  .obj [("typedConfig", .obj [
    ("@type", .str "type.googleapis.com/envoy.config.filter.network.http_connection_manager.v2.HttpConnectionManager"),
    ("rds", .obj [("routeConfigName", .str rdsName)])])]

/-- A listener with one chain and one HCM filter referencing `rdsName`. -/
def mkHcmListener (name rdsName : String) : JValue :=
  .obj [("activeState", .obj [("listener",
    .obj [("name", .str name),
      ("filterChains", .arr [.obj [("filters", .arr [mkHcmFilter rdsName])]])])])]

/-- One member of a clusters array: a named cluster. -/
def mkSimpleCluster (name : String) : JValue :=
  .obj [("cluster", .obj [("name", .str name)])]

/-- A per-client entry whose `xdsConfig` holds one `listenerConfig` with a
single listeners array. -/
def mkListenerClientEntry (listeners : List JValue) : JValue :=
  .obj [("xdsConfig", .arr [.obj [("listenerConfig",
    .obj [("dynamicActiveListeners", .arr listeners)])]])]

/-- A snapshot with one client entry holding the given listeners. -/
def mkListenerSnapshot (listeners : List JValue) : JObj :=
  [("config", .arr [mkListenerClientEntry listeners])]

/-! ## Classification of extraction failures

Every failure inside `parseXdsRelationship` originates in one of the three
interface-conversion panics; in particular no failure carries a message
naming the configuration category being processed. -/

/-- The failure is an interface-conversion panic (one of the three fixed
Go runtime messages, none of which mentions an xDS category). -/
def ConvPanic (e : GoFail) : Prop :=
  e = .panic msgNotObj ∨ e = .panic msgNotArr ∨ e = .panic msgNotStr

/-- A computation that can only fail with an interface-conversion panic. -/
def ConvOnly (x : Except GoFail α) : Prop :=
  ∀ e, x = .error e → ConvPanic e

/-! ## Shape invariants of the extracted state

Every id stored in `lds`/`rds`/`cds` is the category tag followed by a
decimal index, and every reference set is strictly ascending (hence
deduplicated); the relation maps have unique keys. -/

/-- All values of the map are `tag` followed by a decimal `Nat`. -/
def IdShape (tag : String) (m : List (String × String)) : Prop :=
  ∀ p ∈ m, ∃ n : Nat, p.2 = tag ++ Nat.repr n

/-- Unique keys, strictly ascending value sets. -/
def RelOK (m : List (String × List String)) : Prop :=
  (m.map Prod.fst).Nodup ∧ ∀ p ∈ m, p.2.Pairwise (· < ·)

structure StateOK (st : PState) : Prop where
  hlds : IdShape "LDS" st.lds
  hrds : IdShape "RDS" st.rds
  hcds : IdShape "CDS" st.cds
  hl2r : RelOK st.ldsToRds
  hr2c : RelOK st.rdsToCds

/-! ## Specification-side summarizer definitions

Stated from the spec's words, to be compared with the code-side
`xdsTag`/`parseConfigStatus_v2`. -/

/-- The four variants in the fixed check order, paired with their tags. -/
def populatedTags (p : PerXdsConfig) : List (Bool × String) :=
  [(p.clusterConfig, "CDS"), (p.listenerConfig, "LDS"),
   (p.routeConfig, "RDS"), (p.scopedRouteConfig, "SRDS")]

/-- Specification side: the label of an entry is the tag of the first
populated variant in check order, if any. -/
def specTag (p : PerXdsConfig) : Option String :=
  (((populatedTags p).filter (fun q => q.1)).head?).map Prod.snd

/-- Specification side: one line per entry with a non-empty status and a
populated variant, formatted as the category tag followed by the status. -/
def specStatusLines (entries : List PerXdsConfig) : List String :=
  entries.filterMap (fun p =>
    match specTag p with
    | some tag => if p.status = "" then none else some (tag ++ "   " ++ p.status)
    | none => none)

/-! ## The running example snapshot (spec section 8) -/

/-- A snapshot with one client entry: listener `L1` referencing route-table
`R1`, route-table `R1` with one route to cluster `C1`, and cluster `C1`. -/
def exampleSnapshot : JObj :=
  [("config", .arr [.obj [("xdsConfig", .arr [
    .obj [("listenerConfig", .obj
      [("dynamicActiveListeners", .arr [mkHcmListener "L1" "R1"])])],
    .obj [("routeConfig", .obj
      [("dynamicRouteConfigs", .arr [mkRouteTable "R1" [[RAction.single "C1"]]])])],
    .obj [("clusterConfig", .obj
      [("dynamicActiveClusters", .arr [mkSimpleCluster "C1"])])]])]])]

/-- The graph extracted from `exampleSnapshot`:
nodes L1 ↦ LDS0, R1 ↦ RDS0, C1 ↦ CDS0 and edges L1 → R1, R1 → C1. -/
def exampleGraph : GraphData :=
  ⟨[[("L1", "LDS0")], [("R1", "RDS0")], [("C1", "CDS0")]],
   [[("L1", ["R1"])], [("R1", ["C1"])]]⟩

/-- The Go map whose iteration order the renderer depends on. -/
def mapOrderNodes : List (String × String) := [("a", "LDS0"), ("b", "LDS1")]

/-- A graph with two listener nodes and no edges. -/
def gdTwoListeners : GraphData := ⟨[mapOrderNodes, [], []], [[], []]⟩

/-- A snapshot with two client entries, each reporting one listener. -/
def twoEntrySnapshot : JObj :=
  [("config", JValue.arr [mkListenerClientEntry [mkSimpleListener "a"],
    mkListenerClientEntry [mkSimpleListener "b"]])]

/-- The empty snapshot (no client entries). -/
def emptySnapshot : JObj := [("config", JValue.arr [])]

theorem ebind_ok_iff (x : Except GoFail α) (f : α → Except GoFail β) (b : β) :
    ebind x f = .ok b ↔ ∃ a, x = .ok a ∧ f a = .ok b := by
  cases x <;> simp [ebind]

theorem ebind_err_iff (x : Except GoFail α) (f : α → Except GoFail β) (e : GoFail) :
    ebind x f = .error e ↔ (x = .error e ∨ ∃ a, x = .ok a ∧ f a = .error e) := by
  cases x <;> simp [ebind]

example : parseXdsRelationship [("config", JValue.arr [])] =
    .ok ⟨[[], [], []], [[], []]⟩ := rfl

/-! ## Lemmas about the ordered-set and map primitives -/

theorem mem_tsAdd (s : List String) (x y : String) :
    y ∈ tsAdd s x ↔ y = x ∨ y ∈ s := by
  induction s with
  | nil => simp [tsAdd]
  | cons z zs ih =>
    by_cases h1 : x < z
    · simp only [tsAdd, if_pos h1, List.mem_cons]
    · by_cases h2 : x = z
      · subst h2
        have hb : (x == x) = true := beq_self_eq_true x
        simp only [tsAdd, if_neg h1, hb, if_true, List.mem_cons]
        tauto
      · have hb : (x == z) = false := by simp [h2]
        simp only [tsAdd, if_neg h1, hb, Bool.false_eq_true, if_false, List.mem_cons, ih]
        tauto

theorem pairwise_tsAdd (s : List String) (x : String) (h : s.Pairwise (· < ·)) :
    (tsAdd s x).Pairwise (· < ·) := by
  induction s with
  | nil => simp [tsAdd]
  | cons z zs ih =>
    rcases List.pairwise_cons.1 h with ⟨hz, hp⟩
    by_cases h1 : x < z
    · simp only [tsAdd, if_pos h1]
      refine List.pairwise_cons.2 ⟨?_, h⟩
      intro w hw
      rcases List.mem_cons.1 hw with rfl | hw2
      · exact h1
      · exact lt_trans h1 (hz w hw2)
    · by_cases h2 : x = z
      · subst h2
        have hb : (x == x) = true := beq_self_eq_true x
        simpa only [tsAdd, if_neg h1, hb, if_true] using h
      · have hb : (x == z) = false := by simp [h2]
        simp only [tsAdd, if_neg h1, hb, Bool.false_eq_true, if_false]
        refine List.pairwise_cons.2 ⟨?_, ih hp⟩
        intro w hw
        rcases (mem_tsAdd zs x w).1 hw with rfl | hw2
        · exact lt_of_le_of_ne (le_of_not_lt h1) (fun hzx => h2 hzx.symm)
        · exact hz w hw2

theorem nodup_of_pairwise_lt (s : List String) (h : s.Pairwise (· < ·)) : s.Nodup :=
  h.imp ne_of_lt

theorem mem_foldl_tsAdd (l : List String) (s : List String) (y : String) :
    y ∈ List.foldl tsAdd s l ↔ y ∈ s ∨ y ∈ l := by
  induction l generalizing s with
  | nil => simp
  | cons a rest ih =>
    simp only [List.foldl_cons, ih, mem_tsAdd, List.mem_cons]
    tauto

theorem pairwise_foldl_tsAdd (l : List String) (s : List String)
    (h : s.Pairwise (· < ·)) : (List.foldl tsAdd s l).Pairwise (· < ·) := by
  induction l generalizing s with
  | nil => exact h
  | cons a rest ih => exact ih _ (pairwise_tsAdd s a h)

theorem mem_mapUpd (m : List (String × α)) (k : String) (v : α) (p : String × α) :
    p ∈ mapUpd m k v → p = (k, v) ∨ p ∈ m := by
  induction m with
  | nil => simp [mapUpd]
  | cons q rest ih =>
    obtain ⟨k0, v0⟩ := q
    simp only [mapUpd]
    by_cases hb : (k0 == k) = true
    · simp only [if_pos hb, List.mem_cons]
      tauto
    · simp only [if_neg hb, List.mem_cons]
      intro hp
      rcases hp with rfl | hp2
      · tauto
      · rcases ih hp2 with h | h <;> tauto

theorem mem_map_fst_mapUpd (m : List (String × α)) (k : String) (v : α) (a : String) :
    a ∈ (mapUpd m k v).map Prod.fst ↔ a ∈ m.map Prod.fst ∨ a = k := by
  induction m with
  | nil => simp [mapUpd]
  | cons q rest ih =>
    obtain ⟨k0, v0⟩ := q
    simp only [mapUpd]
    by_cases hb : (k0 == k) = true
    · have heq : k0 = k := by simpa using hb
      subst heq
      rw [if_pos hb]
      simp only [List.map_cons, List.mem_cons]
      tauto
    · have hne : k0 ≠ k := by simpa using hb
      simp only [if_neg hb, List.map_cons, List.mem_cons, ih]
      tauto

theorem nodup_map_fst_mapUpd (m : List (String × α)) (k : String) (v : α)
    (h : (m.map Prod.fst).Nodup) : ((mapUpd m k v).map Prod.fst).Nodup := by
  induction m with
  | nil => simp [mapUpd]
  | cons q rest ih =>
    obtain ⟨k0, v0⟩ := q
    simp only [List.map_cons, List.nodup_cons] at h
    simp only [mapUpd]
    by_cases hb : (k0 == k) = true
    · have heq : k0 = k := by simpa using hb
      subst heq
      rw [if_pos hb]
      simp only [List.map_cons, List.nodup_cons]
      exact h
    · have hne : k0 ≠ k := by simpa using hb
      simp only [if_neg hb, List.map_cons, List.nodup_cons]
      refine ⟨?_, ih h.2⟩
      intro hmem
      rcases (mem_map_fst_mapUpd rest k v k0).1 hmem with h2 | h2
      · exact h.1 h2
      · exact hne h2

theorem alookup_cons (k0 : String) (v0 : α) (rest : List (String × α)) (k : String) :
    alookup ((k0, v0) :: rest) k = if k0 == k then some v0 else alookup rest k := by
  by_cases hb : (k0 == k) = true
  · simp [alookup, List.find?, hb]
  · simp only [Bool.not_eq_true] at hb
    simp [alookup, List.find?, hb]

theorem alookup_mapUpd_self (m : List (String × α)) (k : String) (v : α) :
    alookup (mapUpd m k v) k = some v := by
  induction m with
  | nil => simp [mapUpd, alookup, List.find?]
  | cons q rest ih =>
    obtain ⟨k0, v0⟩ := q
    simp only [mapUpd]
    by_cases hb : (k0 == k) = true
    · have heq : k0 = k := by simpa using hb
      subst heq
      rw [if_pos hb, alookup_cons]
      simp
    · rw [if_neg hb, alookup_cons, if_neg hb]
      exact ih

theorem alookup_mapUpd_ne (m : List (String × α)) (k : String) (v : α) (k1 : String)
    (h : k1 ≠ k) : alookup (mapUpd m k v) k1 = alookup m k1 := by
  have hk1 : (k == k1) = false := by
    rw [beq_eq_false_iff_ne]
    exact Ne.symm h
  induction m with
  | nil =>
    simp [mapUpd, alookup, List.find?, hk1]
  | cons q rest ih =>
    obtain ⟨k0, v0⟩ := q
    simp only [mapUpd]
    by_cases hb : (k0 == k) = true
    · have heq : k0 = k := by simpa using hb
      subst heq
      rw [if_pos hb, alookup_cons, alookup_cons, if_neg (by simp [hk1]), if_neg (by simp [hk1])]
    · rw [if_neg hb, alookup_cons, alookup_cons]
      by_cases hb1 : (k0 == k1) = true
      · rw [if_pos hb1, if_pos hb1]
      · rw [if_neg hb1, if_neg hb1]
        exact ih

theorem alookup_of_mem_nodup (m : List (String × α)) (k : String) (v : α)
    (hn : (m.map Prod.fst).Nodup) (hm : (k, v) ∈ m) : alookup m k = some v := by
  induction m with
  | nil => simp at hm
  | cons q rest ih =>
    obtain ⟨k0, v0⟩ := q
    simp only [List.map_cons, List.nodup_cons] at hn
    rcases List.mem_cons.1 hm with heq | hmem
    · injection heq with h1 h2
      subst h1; subst h2
      simp [alookup_cons]
    · have hne : k0 ≠ k := by
        intro h
        subst h
        exact hn.1 (List.mem_map.2 ⟨(k0, v), hmem, rfl⟩)
      have hb : (k0 == k) = false := by simpa using hne
      simp [alookup_cons, hb, ih hn.2 hmem]

theorem alookup_mem (m : List (String × α)) (k : String) (v : α)
    (h : alookup m k = some v) : (k, v) ∈ m := by
  induction m with
  | nil => simp [alookup, List.find?] at h
  | cons q rest ih =>
    obtain ⟨k0, v0⟩ := q
    rw [alookup_cons] at h
    by_cases hb : (k0 == k) = true
    · have : k0 = k := by simpa using hb
      subst this
      rw [if_pos hb] at h
      injection h with h
      subst h
      exact List.mem_cons_self _ _
    · rw [if_neg hb] at h
      exact List.mem_cons_of_mem _ (ih h)

theorem convOnly_ok (a : α) : ConvOnly (Except.ok a : Except GoFail α) := by
  intro e h
  exact absurd h (by simp)

theorem convOnly_asObj (v : JValue) : ConvOnly (asObj v) := by
  intro e h
  cases v with
  | obj o => exact absurd h (by simp [asObj])
  | str s => simp only [asObj, Except.error.injEq] at h; exact Or.inl h.symm
  | num n => simp only [asObj, Except.error.injEq] at h; exact Or.inl h.symm
  | jbool b => simp only [asObj, Except.error.injEq] at h; exact Or.inl h.symm
  | null => simp only [asObj, Except.error.injEq] at h; exact Or.inl h.symm
  | arr a => simp only [asObj, Except.error.injEq] at h; exact Or.inl h.symm

theorem convOnly_asArr (v : JValue) : ConvOnly (asArr v) := by
  intro e h
  cases v with
  | arr a => exact absurd h (by simp [asArr])
  | str s => simp only [asArr, Except.error.injEq] at h; exact Or.inr (Or.inl h.symm)
  | num n => simp only [asArr, Except.error.injEq] at h; exact Or.inr (Or.inl h.symm)
  | jbool b => simp only [asArr, Except.error.injEq] at h; exact Or.inr (Or.inl h.symm)
  | null => simp only [asArr, Except.error.injEq] at h; exact Or.inr (Or.inl h.symm)
  | obj o => simp only [asArr, Except.error.injEq] at h; exact Or.inr (Or.inl h.symm)

theorem convOnly_asStr (v : JValue) : ConvOnly (asStr v) := by
  intro e h
  cases v with
  | str s => exact absurd h (by simp [asStr])
  | arr a => simp only [asStr, Except.error.injEq] at h; exact Or.inr (Or.inr h.symm)
  | num n => simp only [asStr, Except.error.injEq] at h; exact Or.inr (Or.inr h.symm)
  | jbool b => simp only [asStr, Except.error.injEq] at h; exact Or.inr (Or.inr h.symm)
  | null => simp only [asStr, Except.error.injEq] at h; exact Or.inr (Or.inr h.symm)
  | obj o => simp only [asStr, Except.error.injEq] at h; exact Or.inr (Or.inr h.symm)

theorem convOnly_ebind (x : Except GoFail α) (f : α → Except GoFail β)
    (hx : ConvOnly x) (hf : ∀ a, ConvOnly (f a)) : ConvOnly (ebind x f) := by
  intro e h
  rcases (ebind_err_iff x f e).1 h with h1 | ⟨a, _, h2⟩
  · exact hx e h1
  · exact hf a e h2

theorem convOnly_scanFilters (fs : List JValue) : ∀ s, ConvOnly (scanFilters fs s) := by
  induction fs with
  | nil => intro s; exact convOnly_ok s
  | cons f rest ih =>
    intro s
    exact convOnly_ebind _ _ (convOnly_asObj _) fun fo =>
      convOnly_ebind _ _ (convOnly_asObj _) fun tco =>
      convOnly_ebind _ _ (convOnly_asObj _) fun ro =>
      convOnly_ebind _ _ (convOnly_asStr _) fun rdsName =>
      ih _

theorem convOnly_scanFilterChains (cs : List JValue) :
    ∀ s, ConvOnly (scanFilterChains cs s) := by
  induction cs with
  | nil => intro s; exact convOnly_ok s
  | cons c rest ih =>
    intro s
    exact convOnly_ebind _ _ (convOnly_asObj _) fun co =>
      convOnly_ebind _ _ (convOnly_asArr _) fun filters =>
      convOnly_ebind _ _ (convOnly_scanFilters _ _) fun s1 =>
      ih _

theorem convOnly_processListener (idx : Nat) (l : JValue) (st : PState) :
    ConvOnly (processListener idx l st) :=
  convOnly_ebind _ _ (convOnly_asObj _) fun lo =>
    convOnly_ebind _ _ (convOnly_asObj _) fun aso =>
    convOnly_ebind _ _ (convOnly_asObj _) fun detail =>
    convOnly_ebind _ _ (convOnly_asStr _) fun name =>
    convOnly_ebind _ _ (convOnly_asArr _) fun chains =>
    convOnly_ebind _ _ (convOnly_scanFilterChains _ _) fun rdsSet =>
    convOnly_ok _

theorem convOnly_processListeners (ls : List JValue) :
    ∀ idx st, ConvOnly (processListeners idx ls st) := by
  induction ls with
  | nil => intro idx st; exact convOnly_ok st
  | cons l rest ih =>
    intro idx st
    exact convOnly_ebind _ _ (convOnly_processListener _ _ _) fun st1 => ih _ _

theorem convOnly_processListenerGroups (o : JObj) :
    ∀ st, ConvOnly (processListenerGroups o st) := by
  induction o with
  | nil => intro st; exact convOnly_ok st
  | cons q rest ih =>
    intro st
    obtain ⟨k, listeners⟩ := q
    exact convOnly_ebind _ _ (convOnly_asArr _) fun ls =>
      convOnly_ebind _ _ (convOnly_processListeners _ _ _) fun st1 => ih _

theorem convOnly_processListenerConfig (v : JValue) (st : PState) :
    ConvOnly (processListenerConfig v st) :=
  convOnly_ebind _ _ (convOnly_asObj _) fun o => convOnly_processListenerGroups o st

theorem convOnly_scanWeighted (cs : List JValue) : ∀ s, ConvOnly (scanWeighted cs s) := by
  induction cs with
  | nil => intro s; exact convOnly_ok s
  | cons c rest ih =>
    intro s
    exact convOnly_ebind _ _ (convOnly_asObj _) fun co =>
      convOnly_ebind _ _ (convOnly_asStr _) fun n => ih _

theorem convOnly_processRoute (vr : JValue) (s : List String) :
    ConvOnly (processRoute vr s) := by
  refine convOnly_ebind _ _ (convOnly_asObj _) fun vro => ?_
  refine convOnly_ebind _ _ (convOnly_asObj _) fun virtualRoute => ?_
  cases jFind virtualRoute "weightedClusters" with
  | some wc =>
    exact convOnly_ebind _ _ (convOnly_asObj _) fun wco =>
      convOnly_ebind _ _ (convOnly_asArr _) fun cl =>
      convOnly_scanWeighted _ _
  | none =>
    exact convOnly_ebind _ _ (convOnly_asStr _) fun n => convOnly_ok _

theorem convOnly_processRoutes (rs : List JValue) : ∀ s, ConvOnly (processRoutes rs s) := by
  induction rs with
  | nil => intro s; exact convOnly_ok s
  | cons r rest ih =>
    intro s
    exact convOnly_ebind _ _ (convOnly_processRoute _ _) fun s1 => ih _

theorem convOnly_processVirtualHosts (vhs : List JValue) :
    ∀ s, ConvOnly (processVirtualHosts vhs s) := by
  induction vhs with
  | nil => intro s; exact convOnly_ok s
  | cons vh rest ih =>
    intro s
    exact convOnly_ebind _ _ (convOnly_asObj _) fun vho =>
      convOnly_ebind _ _ (convOnly_asArr _) fun rts =>
      convOnly_ebind _ _ (convOnly_processRoutes _ _) fun s1 => ih _

theorem convOnly_processRouteTable (idx : Nat) (r : JValue) (st : PState) :
    ConvOnly (processRouteTable idx r st) :=
  convOnly_ebind _ _ (convOnly_asObj _) fun ro =>
    convOnly_ebind _ _ (convOnly_asObj _) fun routeConfig =>
    convOnly_ebind _ _ (convOnly_asStr _) fun name =>
    convOnly_ebind _ _ (convOnly_asArr _) fun vhs =>
    convOnly_ebind _ _ (convOnly_processVirtualHosts _ _) fun cdsSet =>
    convOnly_ok _

theorem convOnly_processRouteTables (rs : List JValue) :
    ∀ idx st, ConvOnly (processRouteTables idx rs st) := by
  induction rs with
  | nil => intro idx st; exact convOnly_ok st
  | cons r rest ih =>
    intro idx st
    exact convOnly_ebind _ _ (convOnly_processRouteTable _ _ _) fun st1 => ih _ _

theorem convOnly_processRouteGroups (o : JObj) :
    ∀ st, ConvOnly (processRouteGroups o st) := by
  induction o with
  | nil => intro st; exact convOnly_ok st
  | cons q rest ih =>
    intro st
    obtain ⟨k, routes⟩ := q
    exact convOnly_ebind _ _ (convOnly_asArr _) fun rs =>
      convOnly_ebind _ _ (convOnly_processRouteTables _ _ _) fun st1 => ih _

theorem convOnly_processRouteConfig (v : JValue) (st : PState) :
    ConvOnly (processRouteConfig v st) :=
  convOnly_ebind _ _ (convOnly_asObj _) fun o => convOnly_processRouteGroups o st

theorem convOnly_processClusterEntry (idx : Nat) (c : JValue) (st : PState) :
    ConvOnly (processClusterEntry idx c st) :=
  convOnly_ebind _ _ (convOnly_asObj _) fun co =>
    convOnly_ebind _ _ (convOnly_asObj _) fun detail =>
    convOnly_ebind _ _ (convOnly_asStr _) fun name =>
    convOnly_ok _

theorem convOnly_processClusters (cs : List JValue) :
    ∀ idx st, ConvOnly (processClusters idx cs st) := by
  induction cs with
  | nil => intro idx st; exact convOnly_ok st
  | cons c rest ih =>
    intro idx st
    exact convOnly_ebind _ _ (convOnly_processClusterEntry _ _ _) fun st1 => ih _ _

theorem convOnly_processClusterGroups (o : JObj) :
    ∀ st, ConvOnly (processClusterGroups o st) := by
  induction o with
  | nil => intro st; exact convOnly_ok st
  | cons q rest ih =>
    intro st
    obtain ⟨k, clusters⟩ := q
    exact convOnly_ebind _ _ (convOnly_asArr _) fun cs =>
      convOnly_ebind _ _ (convOnly_processClusters _ _ _) fun st1 => ih _

theorem convOnly_processClusterConfig (v : JValue) (st : PState) :
    ConvOnly (processClusterConfig v st) :=
  convOnly_ebind _ _ (convOnly_asObj _) fun o => convOnly_processClusterGroups o st

theorem convOnly_processXdsEntries (o : JObj) :
    ∀ st, ConvOnly (processXdsEntries o st) := by
  induction o with
  | nil => intro st; exact convOnly_ok st
  | cons q rest ih =>
    intro st
    obtain ⟨key, value⟩ := q
    refine convOnly_ebind _ _ ?_ fun st1 => ih _
    by_cases h1 : (key == "status") = true
    · simp only [h1, if_true]; exact convOnly_ok st
    · by_cases h2 : (key == "listenerConfig") = true
      · simp only [h1, h2, if_true, Bool.false_eq_true, if_false]
        exact convOnly_processListenerConfig _ _
      · by_cases h3 : (key == "routeConfig") = true
        · simp only [h1, h2, h3, if_true, Bool.false_eq_true, if_false]
          exact convOnly_processRouteConfig _ _
        · by_cases h4 : (key == "clusterConfig") = true
          · simp only [h1, h2, h3, h4, if_true, Bool.false_eq_true, if_false]
            exact convOnly_processClusterConfig _ _
          · simp only [h1, h2, h3, h4, Bool.false_eq_true, if_false]
            exact convOnly_ok st

theorem convOnly_processXdsList (l : List JValue) :
    ∀ st, ConvOnly (processXdsList l st) := by
  induction l with
  | nil => intro st; exact convOnly_ok st
  | cons xds rest ih =>
    intro st
    exact convOnly_ebind _ _ (convOnly_asObj _) fun entries =>
      convOnly_ebind _ _ (convOnly_processXdsEntries _ _) fun st1 => ih _

theorem convOnly_processConfig (c : JValue) (st : PState) :
    ConvOnly (processConfig c st) :=
  convOnly_ebind _ _ (convOnly_asObj _) fun configMap =>
    convOnly_ebind _ _ (convOnly_asArr _) fun xdsArr =>
    convOnly_processXdsList _ _

theorem convOnly_processConfigs (cs : List JValue) :
    ∀ st, ConvOnly (processConfigs cs st) := by
  induction cs with
  | nil => intro st; exact convOnly_ok st
  | cons c rest ih =>
    intro st
    exact convOnly_ebind _ _ (convOnly_processConfig _ _) fun st1 => ih _

theorem convOnly_parseXdsRelationship (data : JObj) :
    ConvOnly (parseXdsRelationship data) :=
  convOnly_ebind _ _ (convOnly_asArr _) fun configs =>
    convOnly_ebind _ _ (convOnly_processConfigs _ _) fun st =>
    convOnly_ok _

theorem idShape_mapUpd (tag : String) (m : List (String × String)) (k v : String)
    (h : IdShape tag m) (hv : ∃ n, v = tag ++ Nat.repr n) : IdShape tag (mapUpd m k v) := by
  intro p hp
  rcases mem_mapUpd m k v p hp with rfl | hp2
  · exact hv
  · exact h p hp2

theorem relOK_mapUpd (m : List (String × List String)) (k : String) (s : List String)
    (h : RelOK m) (hs : s.Pairwise (· < ·)) : RelOK (mapUpd m k s) := by
  refine ⟨nodup_map_fst_mapUpd _ _ _ h.1, ?_⟩
  intro p hp
  rcases mem_mapUpd m k s p hp with rfl | hp2
  · exact hs
  · exact h.2 p hp2

theorem scanFilters_pairwise (fs : List JValue) :
    ∀ s s1, s.Pairwise (· < ·) → scanFilters fs s = .ok s1 → s1.Pairwise (· < ·) := by
  induction fs with
  | nil =>
    intro s s1 hs h
    simp only [scanFilters] at h
    exact (Except.ok.inj h) ▸ hs
  | cons f rest ih =>
    intro s s1 hs h
    simp only [scanFilters] at h
    rcases (ebind_ok_iff _ _ _).1 h with ⟨fo, _, h⟩
    rcases (ebind_ok_iff _ _ _).1 h with ⟨tco, _, h⟩
    rcases (ebind_ok_iff _ _ _).1 h with ⟨ro, _, h⟩
    rcases (ebind_ok_iff _ _ _).1 h with ⟨rdsName, _, h⟩
    exact ih _ _ (pairwise_tsAdd s rdsName hs) h

theorem scanFilterChains_pairwise (cs : List JValue) :
    ∀ s s1, s.Pairwise (· < ·) → scanFilterChains cs s = .ok s1 → s1.Pairwise (· < ·) := by
  induction cs with
  | nil =>
    intro s s1 hs h
    simp only [scanFilterChains] at h
    exact (Except.ok.inj h) ▸ hs
  | cons c rest ih =>
    intro s s1 hs h
    simp only [scanFilterChains] at h
    rcases (ebind_ok_iff _ _ _).1 h with ⟨co, _, h⟩
    rcases (ebind_ok_iff _ _ _).1 h with ⟨filters, _, h⟩
    rcases (ebind_ok_iff _ _ _).1 h with ⟨s2, hs2, h⟩
    exact ih _ _ (scanFilters_pairwise _ _ _ hs hs2) h

theorem scanWeighted_pairwise (cs : List JValue) :
    ∀ s s1, s.Pairwise (· < ·) → scanWeighted cs s = .ok s1 → s1.Pairwise (· < ·) := by
  induction cs with
  | nil =>
    intro s s1 hs h
    simp only [scanWeighted] at h
    exact (Except.ok.inj h) ▸ hs
  | cons c rest ih =>
    intro s s1 hs h
    simp only [scanWeighted] at h
    rcases (ebind_ok_iff _ _ _).1 h with ⟨co, _, h⟩
    rcases (ebind_ok_iff _ _ _).1 h with ⟨n, _, h⟩
    exact ih _ _ (pairwise_tsAdd s n hs) h

theorem processRoute_pairwise (vr : JValue) (s s1 : List String)
    (hs : s.Pairwise (· < ·)) (h : processRoute vr s = .ok s1) : s1.Pairwise (· < ·) := by
  simp only [processRoute] at h
  rcases (ebind_ok_iff _ _ _).1 h with ⟨vro, _, h⟩
  rcases (ebind_ok_iff _ _ _).1 h with ⟨virtualRoute, _, h⟩
  cases hf : jFind virtualRoute "weightedClusters" with
  | some wc =>
    rw [hf] at h
    rcases (ebind_ok_iff _ _ _).1 h with ⟨wco, _, h⟩
    rcases (ebind_ok_iff _ _ _).1 h with ⟨cl, _, h⟩
    exact scanWeighted_pairwise _ _ _ hs h
  | none =>
    rw [hf] at h
    rcases (ebind_ok_iff _ _ _).1 h with ⟨n, _, h⟩
    exact (Except.ok.inj h) ▸ pairwise_tsAdd s n hs

theorem processRoutes_pairwise (rs : List JValue) :
    ∀ s s1, s.Pairwise (· < ·) → processRoutes rs s = .ok s1 → s1.Pairwise (· < ·) := by
  induction rs with
  | nil =>
    intro s s1 hs h
    simp only [processRoutes] at h
    exact (Except.ok.inj h) ▸ hs
  | cons r rest ih =>
    intro s s1 hs h
    simp only [processRoutes] at h
    rcases (ebind_ok_iff _ _ _).1 h with ⟨s2, hs2, h⟩
    exact ih _ _ (processRoute_pairwise _ _ _ hs hs2) h

theorem processVirtualHosts_pairwise (vhs : List JValue) :
    ∀ s s1, s.Pairwise (· < ·) → processVirtualHosts vhs s = .ok s1 → s1.Pairwise (· < ·) := by
  induction vhs with
  | nil =>
    intro s s1 hs h
    simp only [processVirtualHosts] at h
    exact (Except.ok.inj h) ▸ hs
  | cons vh rest ih =>
    intro s s1 hs h
    simp only [processVirtualHosts] at h
    rcases (ebind_ok_iff _ _ _).1 h with ⟨vho, _, h⟩
    rcases (ebind_ok_iff _ _ _).1 h with ⟨rts, _, h⟩
    rcases (ebind_ok_iff _ _ _).1 h with ⟨s2, hs2, h⟩
    exact ih _ _ (processRoutes_pairwise _ _ _ hs hs2) h

theorem stOK_processListener (idx : Nat) (l : JValue) (st st1 : PState)
    (h : StateOK st) (he : processListener idx l st = .ok st1) : StateOK st1 := by
  simp only [processListener] at he
  rcases (ebind_ok_iff _ _ _).1 he with ⟨lo, _, he⟩
  rcases (ebind_ok_iff _ _ _).1 he with ⟨aso, _, he⟩
  rcases (ebind_ok_iff _ _ _).1 he with ⟨detail, _, he⟩
  rcases (ebind_ok_iff _ _ _).1 he with ⟨name, _, he⟩
  rcases (ebind_ok_iff _ _ _).1 he with ⟨chains, _, he⟩
  rcases (ebind_ok_iff _ _ _).1 he with ⟨rdsSet, hscan, he⟩
  injection he with he
  subst he
  exact ⟨idShape_mapUpd _ _ _ _ h.hlds ⟨idx, rfl⟩, h.hrds, h.hcds,
    relOK_mapUpd _ _ _ h.hl2r (scanFilterChains_pairwise _ _ _ List.Pairwise.nil hscan),
    h.hr2c⟩

theorem stOK_processListeners (ls : List JValue) :
    ∀ idx st st1, StateOK st → processListeners idx ls st = .ok st1 → StateOK st1 := by
  induction ls with
  | nil =>
    intro idx st st1 h he
    simp only [processListeners] at he
    exact (Except.ok.inj he) ▸ h
  | cons l rest ih =>
    intro idx st st1 h he
    simp only [processListeners] at he
    rcases (ebind_ok_iff _ _ _).1 he with ⟨stm, hm, he⟩
    exact ih _ _ _ (stOK_processListener _ _ _ _ h hm) he

theorem stOK_processListenerGroups (o : JObj) :
    ∀ st st1, StateOK st → processListenerGroups o st = .ok st1 → StateOK st1 := by
  induction o with
  | nil =>
    intro st st1 h he
    simp only [processListenerGroups] at he
    exact (Except.ok.inj he) ▸ h
  | cons q rest ih =>
    intro st st1 h he
    obtain ⟨k, listeners⟩ := q
    simp only [processListenerGroups] at he
    rcases (ebind_ok_iff _ _ _).1 he with ⟨ls, _, he⟩
    rcases (ebind_ok_iff _ _ _).1 he with ⟨stm, hm, he⟩
    exact ih _ _ (stOK_processListeners _ _ _ _ h hm) he

theorem stOK_processListenerConfig (v : JValue) (st st1 : PState)
    (h : StateOK st) (he : processListenerConfig v st = .ok st1) : StateOK st1 := by
  simp only [processListenerConfig] at he
  rcases (ebind_ok_iff _ _ _).1 he with ⟨o, _, he⟩
  exact stOK_processListenerGroups _ _ _ h he

theorem stOK_processRouteTable (idx : Nat) (r : JValue) (st st1 : PState)
    (h : StateOK st) (he : processRouteTable idx r st = .ok st1) : StateOK st1 := by
  simp only [processRouteTable] at he
  rcases (ebind_ok_iff _ _ _).1 he with ⟨ro, _, he⟩
  rcases (ebind_ok_iff _ _ _).1 he with ⟨routeConfig, _, he⟩
  rcases (ebind_ok_iff _ _ _).1 he with ⟨name, _, he⟩
  rcases (ebind_ok_iff _ _ _).1 he with ⟨vhs, _, he⟩
  rcases (ebind_ok_iff _ _ _).1 he with ⟨cdsSet, hscan, he⟩
  injection he with he
  subst he
  exact ⟨h.hlds, idShape_mapUpd _ _ _ _ h.hrds ⟨idx, rfl⟩, h.hcds, h.hl2r,
    relOK_mapUpd _ _ _ h.hr2c (processVirtualHosts_pairwise _ _ _ List.Pairwise.nil hscan)⟩

theorem stOK_processRouteTables (rs : List JValue) :
    ∀ idx st st1, StateOK st → processRouteTables idx rs st = .ok st1 → StateOK st1 := by
  induction rs with
  | nil =>
    intro idx st st1 h he
    simp only [processRouteTables] at he
    exact (Except.ok.inj he) ▸ h
  | cons r rest ih =>
    intro idx st st1 h he
    simp only [processRouteTables] at he
    rcases (ebind_ok_iff _ _ _).1 he with ⟨stm, hm, he⟩
    exact ih _ _ _ (stOK_processRouteTable _ _ _ _ h hm) he

theorem stOK_processRouteGroups (o : JObj) :
    ∀ st st1, StateOK st → processRouteGroups o st = .ok st1 → StateOK st1 := by
  induction o with
  | nil =>
    intro st st1 h he
    simp only [processRouteGroups] at he
    exact (Except.ok.inj he) ▸ h
  | cons q rest ih =>
    intro st st1 h he
    obtain ⟨k, routes⟩ := q
    simp only [processRouteGroups] at he
    rcases (ebind_ok_iff _ _ _).1 he with ⟨rs, _, he⟩
    rcases (ebind_ok_iff _ _ _).1 he with ⟨stm, hm, he⟩
    exact ih _ _ (stOK_processRouteTables _ _ _ _ h hm) he

theorem stOK_processRouteConfig (v : JValue) (st st1 : PState)
    (h : StateOK st) (he : processRouteConfig v st = .ok st1) : StateOK st1 := by
  simp only [processRouteConfig] at he
  rcases (ebind_ok_iff _ _ _).1 he with ⟨o, _, he⟩
  exact stOK_processRouteGroups _ _ _ h he

theorem stOK_processClusterEntry (idx : Nat) (c : JValue) (st st1 : PState)
    (h : StateOK st) (he : processClusterEntry idx c st = .ok st1) : StateOK st1 := by
  simp only [processClusterEntry] at he
  rcases (ebind_ok_iff _ _ _).1 he with ⟨co, _, he⟩
  rcases (ebind_ok_iff _ _ _).1 he with ⟨detail, _, he⟩
  rcases (ebind_ok_iff _ _ _).1 he with ⟨name, _, he⟩
  injection he with he
  subst he
  exact ⟨h.hlds, h.hrds, idShape_mapUpd _ _ _ _ h.hcds ⟨idx, rfl⟩, h.hl2r, h.hr2c⟩

theorem stOK_processClusters (cs : List JValue) :
    ∀ idx st st1, StateOK st → processClusters idx cs st = .ok st1 → StateOK st1 := by
  induction cs with
  | nil =>
    intro idx st st1 h he
    simp only [processClusters] at he
    exact (Except.ok.inj he) ▸ h
  | cons c rest ih =>
    intro idx st st1 h he
    simp only [processClusters] at he
    rcases (ebind_ok_iff _ _ _).1 he with ⟨stm, hm, he⟩
    exact ih _ _ _ (stOK_processClusterEntry _ _ _ _ h hm) he

theorem stOK_processClusterGroups (o : JObj) :
    ∀ st st1, StateOK st → processClusterGroups o st = .ok st1 → StateOK st1 := by
  induction o with
  | nil =>
    intro st st1 h he
    simp only [processClusterGroups] at he
    exact (Except.ok.inj he) ▸ h
  | cons q rest ih =>
    intro st st1 h he
    obtain ⟨k, clusters⟩ := q
    simp only [processClusterGroups] at he
    rcases (ebind_ok_iff _ _ _).1 he with ⟨cs, _, he⟩
    rcases (ebind_ok_iff _ _ _).1 he with ⟨stm, hm, he⟩
    exact ih _ _ (stOK_processClusters _ _ _ _ h hm) he

theorem stOK_processClusterConfig (v : JValue) (st st1 : PState)
    (h : StateOK st) (he : processClusterConfig v st = .ok st1) : StateOK st1 := by
  simp only [processClusterConfig] at he
  rcases (ebind_ok_iff _ _ _).1 he with ⟨o, _, he⟩
  exact stOK_processClusterGroups _ _ _ h he

theorem stOK_processXdsEntries (o : JObj) :
    ∀ st st1, StateOK st → processXdsEntries o st = .ok st1 → StateOK st1 := by
  induction o with
  | nil =>
    intro st st1 h he
    simp only [processXdsEntries] at he
    exact (Except.ok.inj he) ▸ h
  | cons q rest ih =>
    intro st st1 h he
    obtain ⟨key, value⟩ := q
    simp only [processXdsEntries] at he
    rcases (ebind_ok_iff _ _ _).1 he with ⟨stm, hm, he⟩
    refine ih _ _ ?_ he
    by_cases h1 : (key == "status") = true
    · rw [if_pos h1] at hm
      exact (Except.ok.inj hm) ▸ h
    · rw [if_neg h1] at hm
      by_cases h2 : (key == "listenerConfig") = true
      · rw [if_pos h2] at hm
        exact stOK_processListenerConfig _ _ _ h hm
      · rw [if_neg h2] at hm
        by_cases h3 : (key == "routeConfig") = true
        · rw [if_pos h3] at hm
          exact stOK_processRouteConfig _ _ _ h hm
        · rw [if_neg h3] at hm
          by_cases h4 : (key == "clusterConfig") = true
          · rw [if_pos h4] at hm
            exact stOK_processClusterConfig _ _ _ h hm
          · rw [if_neg h4] at hm
            exact (Except.ok.inj hm) ▸ h

theorem stOK_processXdsList (l : List JValue) :
    ∀ st st1, StateOK st → processXdsList l st = .ok st1 → StateOK st1 := by
  induction l with
  | nil =>
    intro st st1 h he
    simp only [processXdsList] at he
    exact (Except.ok.inj he) ▸ h
  | cons xds rest ih =>
    intro st st1 h he
    simp only [processXdsList] at he
    rcases (ebind_ok_iff _ _ _).1 he with ⟨entries, _, he⟩
    rcases (ebind_ok_iff _ _ _).1 he with ⟨stm, hm, he⟩
    exact ih _ _ (stOK_processXdsEntries _ _ _ h hm) he

theorem stOK_processConfig (c : JValue) (st st1 : PState)
    (h : StateOK st) (he : processConfig c st = .ok st1) : StateOK st1 := by
  simp only [processConfig] at he
  rcases (ebind_ok_iff _ _ _).1 he with ⟨configMap, _, he⟩
  rcases (ebind_ok_iff _ _ _).1 he with ⟨xdsArr, _, he⟩
  exact stOK_processXdsList _ _ _ h he

theorem stOK_processConfigs (cs : List JValue) :
    ∀ st st1, StateOK st → processConfigs cs st = .ok st1 → StateOK st1 := by
  induction cs with
  | nil =>
    intro st st1 h he
    simp only [processConfigs] at he
    exact (Except.ok.inj he) ▸ h
  | cons c rest ih =>
    intro st st1 h he
    simp only [processConfigs] at he
    rcases (ebind_ok_iff _ _ _).1 he with ⟨stm, hm, he⟩
    exact ih _ _ (stOK_processConfig _ _ _ h hm) he

theorem stOK_empty : StateOK emptyPState := by
  refine ⟨?_, ?_, ?_, ⟨List.nodup_nil, ?_⟩, ⟨List.nodup_nil, ?_⟩⟩ <;>
    intro p hp <;> exact absurd hp (List.not_mem_nil p)

/-- Every successfully extracted `GraphData` is the packaging of a state
satisfying all shape invariants. -/
theorem parse_ok_inv (data : JObj) (gd : GraphData)
    (h : parseXdsRelationship data = .ok gd) :
    ∃ st : PState, StateOK st ∧
      gd = ⟨[st.lds, st.rds, st.cds], [st.ldsToRds, st.rdsToCds]⟩ := by
  simp only [parseXdsRelationship] at h
  rcases (ebind_ok_iff _ _ _).1 h with ⟨configs, _, h⟩
  rcases (ebind_ok_iff _ _ _).1 h with ⟨st, hst, h⟩
  exact ⟨st, stOK_processConfigs _ _ _ stOK_empty hst, (Except.ok.inj h).symm⟩

theorem alookup_isSome_of_mem_fst (m : List (String × α)) (k : String)
    (h : k ∈ m.map Prod.fst) : ∃ v, alookup m k = some v := by
  induction m with
  | nil => simp at h
  | cons q rest ih =>
    obtain ⟨k0, v0⟩ := q
    rcases List.mem_cons.1 h with heq | hmem
    · subst heq
      exact ⟨v0, by simp [alookup_cons]⟩
    · by_cases hb : (k0 == k) = true
      · exact ⟨v0, by simp [alookup_cons, hb]⟩
      · rcases ih hmem with ⟨v, hv⟩
        exact ⟨v, by simp [alookup_cons, hb, hv]⟩

/-! ## Evaluation lemmas for well-formed builders -/

theorem scanWeighted_mk (cs : List String) :
    ∀ s, scanWeighted (cs.map mkWeightedCluster) s = .ok (List.foldl tsAdd s cs) := by
  induction cs with
  | nil => intro s; rfl
  | cons c rest ih =>
    intro s
    have h1 : scanWeighted ((c :: rest).map mkWeightedCluster) s
        = scanWeighted (rest.map mkWeightedCluster) (tsAdd s c) := rfl
    rw [h1, ih]
    rfl

theorem processRoute_mk (a : RAction) (s : List String) :
    processRoute (mkVirtualRoute a) s = .ok (List.foldl tsAdd s (actionClusters a)) := by
  cases a with
  | single c => rfl
  | weighted cs =>
    have h1 : processRoute (mkVirtualRoute (RAction.weighted cs)) s
        = scanWeighted (cs.map mkWeightedCluster) s := rfl
    rw [h1, scanWeighted_mk]
    rfl

theorem processRoutes_mk (acts : List RAction) :
    ∀ s, processRoutes (acts.map mkVirtualRoute) s
      = .ok (List.foldl tsAdd s (acts.flatMap actionClusters)) := by
  induction acts with
  | nil => intro s; rfl
  | cons a rest ih =>
    intro s
    have h1 : processRoutes ((a :: rest).map mkVirtualRoute) s
        = ebind (processRoute (mkVirtualRoute a) s) fun s1 =>
            processRoutes (rest.map mkVirtualRoute) s1 := rfl
    rw [h1, processRoute_mk]
    have h2 : ebind (Except.ok (List.foldl tsAdd s (actionClusters a)) : Except GoFail (List String))
        (fun s1 => processRoutes (rest.map mkVirtualRoute) s1)
        = processRoutes (rest.map mkVirtualRoute) (List.foldl tsAdd s (actionClusters a)) := rfl
    rw [h2, ih]
    simp [List.foldl_append]

theorem processVirtualHosts_mk (vhs : List (List RAction)) :
    ∀ s, processVirtualHosts (vhs.map mkVirtualHost) s
      = .ok (List.foldl tsAdd s (allClusters vhs)) := by
  induction vhs with
  | nil => intro s; rfl
  | cons acts rest ih =>
    intro s
    have h1 : processVirtualHosts ((acts :: rest).map mkVirtualHost) s
        = ebind (processRoutes (acts.map mkVirtualRoute) s) fun s1 =>
            processVirtualHosts (rest.map mkVirtualHost) s1 := rfl
    rw [h1, processRoutes_mk]
    have h2 : ebind (Except.ok (List.foldl tsAdd s (acts.flatMap actionClusters)) : Except GoFail (List String))
        (fun s1 => processVirtualHosts (rest.map mkVirtualHost) s1)
        = processVirtualHosts (rest.map mkVirtualHost) (List.foldl tsAdd s (acts.flatMap actionClusters)) := rfl
    rw [h2, ih]
    simp [allClusters, List.foldl_append]

theorem processRouteTable_mk (idx : Nat) (name : String) (vhs : List (List RAction)) (st : PState) :
    processRouteTable idx (mkRouteTable name vhs) st
      = .ok { st with
          rds := mapUpd st.rds name ("RDS" ++ Nat.repr idx),
          rdsToCds := mapUpd st.rdsToCds name (routeClusterSet vhs) } := by
  have h1 : processRouteTable idx (mkRouteTable name vhs) st
      = ebind (processVirtualHosts (vhs.map mkVirtualHost) []) fun cdsSet =>
          .ok { st with
            rds := mapUpd st.rds name ("RDS" ++ Nat.repr idx),
            rdsToCds := mapUpd st.rdsToCds name cdsSet } := rfl
  rw [h1, processVirtualHosts_mk]
  rfl

theorem processListener_simple (idx : Nat) (name : String) (st : PState) :
    processListener idx (mkSimpleListener name) st
      = .ok { st with
          lds := mapUpd st.lds name ("LDS" ++ Nat.repr idx),
          ldsToRds := mapUpd st.ldsToRds name [] } := rfl

theorem processListener_emptyChain (idx : Nat) (name : String) (st : PState) :
    processListener idx (mkEmptyChainListener name) st
      = .ok { st with
          lds := mapUpd st.lds name ("LDS" ++ Nat.repr idx),
          ldsToRds := mapUpd st.ldsToRds name [] } := rfl

theorem processListener_hcm (idx : Nat) (name rdsName : String) (st : PState) :
    processListener idx (mkHcmListener name rdsName) st
      = .ok { st with
          lds := mapUpd st.lds name ("LDS" ++ Nat.repr idx),
          ldsToRds := mapUpd st.ldsToRds name [rdsName] } := rfl

theorem processListener_chainless (idx : Nat) (name : String) (st : PState) :
    processListener idx (mkChainlessListener name) st
      = .error (.panic msgNotArr) := rfl

theorem processListener_foreignFilter (idx : Nat) (name : String) (st : PState) :
    processListener idx (mkForeignFilterListener name) st
      = .error (.panic msgNotObj) := rfl

/-! ## Numbering of listener nodes -/

theorem processListeners_simple_step (n : String) (rest : List String) (idx : Nat) (st : PState) :
    processListeners idx ((n :: rest).map mkSimpleListener) st
      = processListeners (idx + 1) (rest.map mkSimpleListener)
          { st with
            lds := mapUpd st.lds n ("LDS" ++ Nat.repr idx),
            ldsToRds := mapUpd st.ldsToRds n [] } := rfl

theorem processListeners_simple_preserve (rest : List String) :
    ∀ idx st st1 (n : String), n ∉ rest →
      processListeners idx (rest.map mkSimpleListener) st = .ok st1 →
      alookup st1.lds n = alookup st.lds n := by
  induction rest with
  | nil =>
    intro idx st st1 n hn he
    simp only [List.map_nil, processListeners] at he
    rw [← Except.ok.inj he]
  | cons m ms ih =>
    intro idx st st1 n hn he
    rw [processListeners_simple_step] at he
    have hnm : n ∉ ms := fun h => hn (List.mem_cons_of_mem m h)
    rw [ih (idx + 1) _ st1 n hnm he]
    exact alookup_mapUpd_ne _ _ _ _ (fun h => hn (h ▸ List.mem_cons_self m ms))

theorem processListeners_simple_lookup (ns : List String) :
    ∀ idx st st1, ns.Nodup →
      processListeners idx (ns.map mkSimpleListener) st = .ok st1 →
      ∀ i (h : i < ns.length),
        alookup st1.lds (ns.get ⟨i, h⟩) = some ("LDS" ++ Nat.repr (idx + i)) := by
  induction ns with
  | nil =>
    intro idx st st1 hnd he i h
    exact absurd h (Nat.not_lt_zero i)
  | cons n rest ih =>
    intro idx st st1 hnd he i h
    rw [processListeners_simple_step] at he
    rcases List.nodup_cons.1 hnd with ⟨hn, hrest⟩
    cases i with
    | zero =>
      have hget : (n :: rest).get ⟨0, h⟩ = n := rfl
      rw [hget, processListeners_simple_preserve rest (idx + 1) _ st1 n hn he,
        Nat.add_zero]
      exact alookup_mapUpd_self _ _ _
    | succ j =>
      have hj : j < rest.length := Nat.lt_of_succ_lt_succ h
      have hget : (n :: rest).get ⟨j + 1, h⟩ = rest.get ⟨j, hj⟩ := rfl
      rw [hget]
      have := ih (idx + 1) _ st1 hrest he j hj
      rw [this]
      have harith : idx + 1 + j = idx + (j + 1) := by omega
      rw [harith]

theorem parse_listenerSnapshot (listeners : List JValue) :
    parseXdsRelationship (mkListenerSnapshot listeners)
      = ebind (processListeners 0 listeners emptyPState) fun st =>
          .ok ⟨[st.lds, st.rds, st.cds], [st.ldsToRds, st.rdsToCds]⟩ := by
  cases hp : processListeners 0 listeners emptyPState with
  | error e =>
    simp [parseXdsRelationship, mkListenerSnapshot, mkListenerClientEntry, jLookup,
      asArr, asObj, ebind, processConfigs, processConfig, processXdsList,
      processXdsEntries, processListenerConfig, processListenerGroups, hp, List.find?]
  | ok st =>
    simp [parseXdsRelationship, mkListenerSnapshot, mkListenerClientEntry, jLookup,
      asArr, asObj, ebind, processConfigs, processConfig, processXdsList,
      processXdsEntries, processListenerConfig, processListenerGroups, hp, List.find?]

/-! ## Renderer support lemmas -/

theorem escName_inj (a b : String) (h : escName a = escName b) : a = b := by
  have hd := congrArg String.data h
  simp only [escName, String.data_append] at hd
  have hlen : (['\\', '\"'] ++ a.data).length = (['\\', '\"'] ++ b.data).length := by
    have h2 := congrArg List.length hd
    simp only [List.length_append] at h2 ⊢
    omega
  have h1 := List.append_inj_left hd hlen
  exact String.ext (List.append_inj_right h1 rfl)

theorem escName_beq_false (a b : String) (h : a ≠ b) :
    (escName a == escName b) = false := by
  rw [beq_eq_false_iff_ne]
  intro hc
  exact h (escName_inj a b hc)

theorem relEdges_nil (rel : List (String × List String)) : relEdges rel [] = [] := rfl

theorem relEdges_cons_some (rel : List (String × List String)) (k : String)
    (v : List String) (rest : List String) (h : alookup rel k = some v) :
    relEdges rel (k :: rest) = v.map (fun d => mkEdgeStmt k d) ++ relEdges rel rest := by
  simp only [relEdges, goIter, List.filterMap_cons, h, Option.map_some']
  rw [List.flatMap_cons]

theorem relEdges_cons_none (rel : List (String × List String)) (k : String)
    (rest : List String) (h : alookup rel k = none) :
    relEdges rel (k :: rest) = relEdges rel rest := by
  simp only [relEdges, goIter, List.filterMap_cons, h, Option.map_none']

theorem filter_block_self (k : String) (s : List String) :
    (s.map (fun d => mkEdgeStmt k d)).filter (fun ed => ed.src == escName k)
      = s.map (fun d => mkEdgeStmt k d) := by
  rw [List.filter_eq_self]
  intro a ha
  rcases List.mem_map.1 ha with ⟨d, _, rfl⟩
  simp [mkEdgeStmt]

theorem filter_block_ne (k src : String) (s : List String) (h : k ≠ src) :
    (s.map (fun d => mkEdgeStmt k d)).filter (fun ed => ed.src == escName src) = [] := by
  rw [List.filter_eq_nil_iff]
  intro a ha
  rcases List.mem_map.1 ha with ⟨d, _, rfl⟩
  simp [mkEdgeStmt, escName_beq_false k src h]

theorem relEdges_filter_not_mem (rel : List (String × List String)) (src : String)
    (order : List String) (horder : src ∉ order) :
    (relEdges rel order).filter (fun ed => ed.src == escName src) = [] := by
  induction order with
  | nil => rfl
  | cons k rest ih =>
    have hk : k ≠ src := fun h => horder (h ▸ List.mem_cons_self k rest)
    have hrest : src ∉ rest := fun h => horder (List.mem_cons_of_mem k h)
    cases halk : alookup rel k with
    | none => rw [relEdges_cons_none rel k rest halk]; exact ih hrest
    | some v =>
      rw [relEdges_cons_some rel k v rest halk, List.filter_append,
        filter_block_ne k src v hk, List.nil_append]
      exact ih hrest

theorem relEdges_filter_eq (rel : List (String × List String)) (src : String)
    (s : List String) (order : List String) (hnd : order.Nodup) (hmem : src ∈ order)
    (hkeys : (rel.map Prod.fst).Nodup) (hrel : (src, s) ∈ rel) :
    (relEdges rel order).filter (fun ed => ed.src == escName src)
      = s.map (fun d => mkEdgeStmt src d) := by
  induction order with
  | nil => exact absurd hmem (List.not_mem_nil src)
  | cons k rest ih =>
    rcases List.nodup_cons.1 hnd with ⟨hknotin, hndrest⟩
    rcases List.mem_cons.1 hmem with rfl | hmemrest
    · have halk : alookup rel src = some s := alookup_of_mem_nodup _ _ _ hkeys hrel
      rw [relEdges_cons_some rel src s rest halk, List.filter_append,
        filter_block_self src s, relEdges_filter_not_mem rel src rest hknotin,
        List.append_nil]
    · have hk : k ≠ src := fun h => hknotin (h ▸ hmemrest)
      cases halk : alookup rel k with
      | none =>
        rw [relEdges_cons_none rel k rest halk]
        exact ih hndrest hmemrest
      | some v =>
        rw [relEdges_cons_some rel k v rest halk, List.filter_append,
          filter_block_ne k src v hk, List.nil_append]
        exact ih hndrest hmemrest

theorem take3_tag (tag t : String) (h3 : tag.data.length = 3) : take3 (tag ++ t) = tag := by
  unfold take3
  rw [String.data_append, ← h3, List.take_left]

theorem colorOf_LDS (t : String) : colorOf ("LDS" ++ t) = "#4285F4" := by
  rw [colorOf, take3_tag "LDS" t rfl]
  rfl

theorem colorOf_RDS (t : String) : colorOf ("RDS" ++ t) = "#FBBC04" := by
  rw [colorOf, take3_tag "RDS" t rfl]
  rfl

theorem colorOf_CDS (t : String) : colorOf ("CDS" ++ t) = "#34A853" := by
  rw [colorOf, take3_tag "CDS" t rfl]
  rfl

theorem xdsTag_eq_specTag (p : PerXdsConfig) : xdsTag p = (specTag p).getD "" := by
  obtain ⟨s, c, l, r, sc⟩ := p
  cases c <;> cases l <;> cases r <;> cases sc <;> rfl

theorem parseConfigStatusAux_eq (l : List PerXdsConfig) :
    ∀ acc, parseConfigStatusAux acc l = acc ++ specStatusLines l := by
  induction l with
  | nil => intro acc; simp [parseConfigStatusAux, specStatusLines]
  | cons p rest ih =>
    intro acc
    obtain ⟨s, c, cl, r, sc⟩ := p
    by_cases hs : s = "" <;>
      cases c <;> cases cl <;> cases r <;> cases sc <;>
        simp [parseConfigStatusAux, specStatusLines, specTag, populatedTags, xdsTag,
          hs, ih, List.filterMap_cons]

theorem parseConfigStatus_v2_eq_spec (entries : List PerXdsConfig) :
    parseConfigStatus_v2 entries = specStatusLines entries := by
  rw [parseConfigStatus_v2, parseConfigStatusAux_eq]
  rfl

example : parseXdsRelationship exampleSnapshot = .ok exampleGraph := rfl

/-! # Claim theorems -/

/-- C1: the renderer was claimed to produce byte-identical output on the
same Graph value across invocations.  The node emission loop ranges over a
Go map, whose iteration order is randomized per invocation: two legitimate
iteration orders of the same two-listener map yield different output
bytes, so the determinism contract is violated by the code. -/
theorem c1_render_depends_on_map_iteration_order :
    ValidOrder mapOrderNodes ["a", "b"] ∧ ValidOrder mapOrderNodes ["b", "a"] ∧
    ∃ sA sB : String,
      generateGraph gdTwoListeners [["a", "b"], [], []] [[], []] = .ok sA ∧
      generateGraph gdTwoListeners [["b", "a"], [], []] [[], []] = .ok sB ∧
      sA ≠ sB := by
  refine ⟨List.Perm.refl _, List.Perm.swap "a" "b" [], _, _, rfl, rfl, by decide⟩

/-- C2 counterexample: a listener with no `filterChains` field, and a
listener whose filter's typed payload is not the HTTP-connection-manager
shape, are not skipped: extraction aborts with an interface-conversion
panic and returns no graph, so the listener is not registered either. -/
theorem c2_counterexample :
    parseXdsRelationship (mkListenerSnapshot [mkChainlessListener "L0"])
        = .error (.panic msgNotArr) ∧
    parseXdsRelationship (mkListenerSnapshot [mkForeignFilterListener "L1"])
        = .error (.panic msgNotObj) := ⟨rfl, rfl⟩

/-- C2 amended: a listener with an empty `filterChains` array, or a chain
with an empty `filters` list, is registered as a node with an empty
reference set and no error; a filter with an HCM route reference adds the
edge; but a listener lacking the `filterChains` field, or a filter whose
typed payload carries no `rds` route reference (an unrecognized extension
type), makes extraction panic, so no node is registered at all. -/
theorem c2_amended (idx : Nat) (name rdsName : String) (st : PState) :
    processListener idx (mkSimpleListener name) st
      = .ok { st with
          lds := mapUpd st.lds name ("LDS" ++ Nat.repr idx),
          ldsToRds := mapUpd st.ldsToRds name [] } ∧
    processListener idx (mkEmptyChainListener name) st
      = .ok { st with
          lds := mapUpd st.lds name ("LDS" ++ Nat.repr idx),
          ldsToRds := mapUpd st.ldsToRds name [] } ∧
    processListener idx (mkHcmListener name rdsName) st
      = .ok { st with
          lds := mapUpd st.lds name ("LDS" ++ Nat.repr idx),
          ldsToRds := mapUpd st.ldsToRds name [rdsName] } ∧
    processListener idx (mkChainlessListener name) st = .error (.panic msgNotArr) ∧
    processListener idx (mkForeignFilterListener name) st = .error (.panic msgNotObj) :=
  ⟨processListener_simple idx name st, processListener_emptyChain idx name st,
    processListener_hcm idx name rdsName st, processListener_chainless idx name st,
    processListener_foreignFilter idx name st⟩

/-- C3 counterexample: a listener entry missing the expected nested `name`
field does not produce a descriptive category-qualified error — extraction
aborts with the fixed interface-conversion panic. -/
theorem c3_counterexample :
    parseXdsRelationship (mkListenerSnapshot
      [JValue.obj [("activeState", JValue.obj [("listener",
        JValue.obj [("filterChains", JValue.arr [])])])]])
      = .error (.panic msgNotStr) := rfl

/-- C3 amended: on malformed input the extraction aborts with one of the
three fixed interface-conversion panic messages, none of which identifies
the configuration category being processed; no GraphData value (partial or
otherwise) accompanies a failure. -/
theorem c3_amended (data : JObj) (e : GoFail)
    (h : parseXdsRelationship data = .error e) : ConvPanic e :=
  convOnly_parseXdsRelationship data e h

theorem c3_amended_witness : ConvPanic (GoFail.panic msgNotArr) :=
  c3_amended [("config", JValue.str "notAnArray")] (.panic msgNotArr) rfl

/-- C4: a route whose action names a single cluster contributes exactly
that name, a weighted action contributes each of its names, and the
route-table's reference set is exactly the deduplicated collection of all
mentioned names (so N distinct names yield N members and duplicates across
routes collapse). -/
theorem c4_route_cluster_references (name : String) (vhs : List (List RAction))
    (idx : Nat) (st : PState) :
    processRouteTable idx (mkRouteTable name vhs) st
      = .ok { st with
          rds := mapUpd st.rds name ("RDS" ++ Nat.repr idx),
          rdsToCds := mapUpd st.rdsToCds name (routeClusterSet vhs) } ∧
    (∀ x, x ∈ routeClusterSet vhs
      ↔ ∃ acts, acts ∈ vhs ∧ ∃ a, a ∈ acts ∧ x ∈ actionClusters a) ∧
    (routeClusterSet vhs).Pairwise (· < ·) ∧
    (routeClusterSet vhs).length = (allClusters vhs).dedup.length := by
  refine ⟨processRouteTable_mk idx name vhs st, ?_, ?_, ?_⟩
  · intro x
    rw [routeClusterSet, mem_foldl_tsAdd]
    simp [allClusters, List.mem_flatMap]
  · exact pairwise_foldl_tsAdd _ _ List.Pairwise.nil
  · have hnd1 : (routeClusterSet vhs).Nodup :=
      nodup_of_pairwise_lt _ (pairwise_foldl_tsAdd _ _ List.Pairwise.nil)
    have hnd2 := List.nodup_dedup (allClusters vhs)
    have hperm : (routeClusterSet vhs).Perm ((allClusters vhs).dedup) := by
      rw [List.perm_ext_iff_of_nodup hnd1 hnd2]
      intro a
      rw [List.mem_dedup, routeClusterSet, mem_foldl_tsAdd]
      simp
    exact hperm.length_eq

/-- C5 counterexample: with two client entries the scan restarts the index
for each listeners array, so the second listener encountered (`b`) gets
`LDS0`, not the claimed sequential `LDS1`. -/
theorem c5_counterexample :
    parseXdsRelationship twoEntrySnapshot
      = .ok ⟨[[("a", "LDS0"), ("b", "LDS0")], [], []],
             [[("a", []), ("b", [])], []]⟩ := rfl

/-- C5 amended: the short id of a node is its zero-based position within
its own enclosing array (`LDS<i>` for the listener at position `i`), so
ids are sequential within one array but restart at 0 for every array, and
a repeated name keeps the id of its last occurrence. -/
theorem c5_amended (ns : List String) (gd : GraphData) (hnd : ns.Nodup)
    (h : parseXdsRelationship (mkListenerSnapshot (ns.map mkSimpleListener)) = .ok gd)
    (i : Nat) (hi : i < ns.length) :
    alookup gd.nodes.headI (ns.get ⟨i, hi⟩) = some ("LDS" ++ Nat.repr i) := by
  rw [parse_listenerSnapshot] at h
  cases hp : processListeners 0 (ns.map mkSimpleListener) emptyPState with
  | error e =>
    rw [hp] at h
    exact absurd h (by simp [ebind])
  | ok st =>
    rw [hp] at h
    simp only [ebind] at h
    have hgd : gd = ⟨[st.lds, st.rds, st.cds], [st.ldsToRds, st.rdsToCds]⟩ :=
      (Except.ok.inj h).symm
    subst hgd
    have hl := processListeners_simple_lookup ns 0 emptyPState st hnd hp i hi
    simpa using hl

theorem c5_amended_witness :
    alookup (GraphData.mk [[("a", "LDS0"), ("b", "LDS1")], [], []]
        [[("a", []), ("b", [])], []]).nodes.headI
      (["a", "b"].get ⟨1, by decide⟩) = some ("LDS" ++ Nat.repr 1) :=
  c5_amended ["a", "b"] _ (by decide) rfl 1 (by decide)

/-- C6 counterexample: when the viewer launch fails (monitor mode off),
`visualize` returns the launch error before ever creating the output file:
the file has not been written, contradicting the claim that it was. -/
theorem c6_counterexample :
    visualize emptySnapshot false [[], [], []] [[], []] false true true
      = (.error (.goError "openBrowser failed"), none) := rfl

/-- C6 amended: the viewer launch happens before the file write, so a
launch failure is propagated and prevents `config_graph.dot` from being
written at all (no file content is produced). -/
theorem c6_amended (config : JObj) (no ro : List (List String)) (co wo : Bool)
    (gd : GraphData) (dot : String)
    (h1 : parseXdsRelationship config = .ok gd)
    (h2 : generateGraph gd no ro = .ok dot) :
    visualize config false no ro false co wo
      = (.error (.goError "openBrowser failed"), none) := by
  simp [visualize, h1, h2]

theorem c6_amended_witness :
    visualize emptySnapshot false [[], [], []] [[], []] false false false
      = (.error (.goError "openBrowser failed"), none) :=
  c6_amended emptySnapshot [[], [], []] [[], []] false false
    ⟨[[], [], []], [[], []]⟩ "digraph G\nrankdir=LR;" rfl rfl

/-- C7: every reference set in an extracted Graph is strictly ascending
(hence deduplicated) in lexicographic order, and in the rendered edge
emission the edges leaving a given source appear exactly as that set, in
the same ascending order, for every legitimate map iteration order. -/
theorem c7_reference_sets_sorted (data : JObj) (gd : GraphData)
    (rel : List (String × List String)) (p : String × List String)
    (order : List String)
    (h : parseXdsRelationship data = .ok gd) (hrel : rel ∈ gd.relations)
    (hp : p ∈ rel) (hord : ValidOrder rel order) :
    (rel.map Prod.fst).Nodup ∧ p.2.Pairwise (· < ·) ∧
    (relEdges rel order).filter (fun ed => ed.src == escName p.1)
      = p.2.map (fun d => mkEdgeStmt p.1 d) := by
  rcases parse_ok_inv data gd h with ⟨st, hok, rfl⟩
  have hRelOK : RelOK rel := by
    rcases List.mem_cons.1 hrel with h1 | h1
    · exact h1 ▸ hok.hl2r
    · rcases List.mem_cons.1 h1 with h2 | h2
      · exact h2 ▸ hok.hr2c
      · exact absurd h2 (List.not_mem_nil rel)
  obtain ⟨src, s⟩ := p
  refine ⟨hRelOK.1, hRelOK.2 _ hp, ?_⟩
  have hordnd : order.Nodup := List.Perm.nodup hord.symm hRelOK.1
  have hsrc : src ∈ order :=
    hord.symm.mem_iff.1 (List.mem_map.2 ⟨(src, s), hp, rfl⟩)
  exact relEdges_filter_eq rel src s order hordnd hsrc hRelOK.1 hp

theorem c7_witness :
    (([("L1", ["R1"])] : List (String × List String)).map Prod.fst).Nodup ∧
    (("L1", ["R1"]) : String × List String).2.Pairwise (· < ·) ∧
    (relEdges [("L1", ["R1"])] ["L1"]).filter
        (fun ed => ed.src == escName ("L1", ["R1"]).1)
      = (("L1", ["R1"]) : String × List String).2.map
          (fun d => mkEdgeStmt ("L1", ["R1"]).1 d) :=
  c7_reference_sets_sorted exampleSnapshot exampleGraph [("L1", ["R1"])]
    ("L1", ["R1"]) ["L1"] rfl (by simp [exampleGraph])
    (by simp) (List.Perm.refl _)

/-- C8 counterexample: a client entry with no node and no configuration
entries produces no output row at all — in particular no "N/A" report. -/
theorem c8_counterexample :
    printOutResponse_v2 [⟨none, []⟩] = [headerLine] ∧
    printClient ⟨none, []⟩ = [] := ⟨rfl, rfl⟩

/-- C8 amended: a client entry with a node and no configuration entries
reports `N/A`; an entry with neither node nor configuration entries
produces no row; the status lines are exactly one line per config entry
with a non-empty status and a populated variant, formatted as the category
tag followed by the status (the specification-side `specStatusLines`), and
they fill the status column, continuation lines carrying empty id/type
columns; a connected client whose entries yield no status line gets a row
with a blank status column. -/
theorem c8_amended (id : String) (t : Option String) (entries : List PerXdsConfig)
    (s0 : String) (rest : List String) :
    printClient ⟨none, []⟩ = [] ∧
    printClient ⟨some ⟨id, t⟩, []⟩
      = [padR id 50 ++ " " ++ padR (t.getD "") 30 ++ " " ++ padR "N/A" 30 ++ " "] ∧
    parseConfigStatus_v2 entries = specStatusLines entries ∧
    (∀ e es, entries = e :: es → parseConfigStatus_v2 entries = [] →
      printClient ⟨some ⟨id, t⟩, entries⟩
        = [padR id 50 ++ " " ++ padR (t.getD "") 30 ++ " "]) ∧
    (parseConfigStatus_v2 entries = s0 :: rest →
      printClient ⟨some ⟨id, t⟩, entries⟩
        = (padR id 50 ++ " " ++ padR (t.getD "") 30 ++ " " ++ padR s0 30 ++ " ")
          :: rest.map (fun s => padR "" 50 ++ " " ++ padR "" 30 ++ " " ++ padR s 30 ++ " ")) := by
  refine ⟨rfl, rfl, parseConfigStatus_v2_eq_spec entries, ?_, ?_⟩
  · intro e es he hz
    subst he
    simp [printClient, hz]
  · intro hz
    cases entries with
    | nil => exact absurd hz (by simp [parseConfigStatus_v2, parseConfigStatusAux])
    | cons e es => simp [printClient, hz]

theorem c8_amended_witness :
    printClient ⟨some ⟨"c0", some "ADS"⟩, [⟨"SYNCED", false, true, false, false⟩]⟩
      = [padR "c0" 50 ++ " " ++ padR "ADS" 30 ++ " " ++ padR "LDS   SYNCED" 30 ++ " "] := by
  have h := (c8_amended "c0" (some "ADS") [⟨"SYNCED", false, true, false, false⟩]
    "LDS   SYNCED" []).2.2.2.2 rfl
  exact h

/-- C9: when several variants of a per-xDS config entry are populated, the
label is the first populated variant in the fixed check order cluster,
listener, route, scoped-route. -/
theorem c9_first_populated_variant (p : PerXdsConfig)
    (h : 2 ≤ ((populatedTags p).filter (fun q => q.1)).length) :
    ∃ tag, specTag p = some tag ∧ xdsTag p = tag := by
  obtain ⟨s, c, l, r, sc⟩ := p
  cases c <;> cases l <;> cases r <;> cases sc <;>
    first
      | exact ⟨_, rfl, rfl⟩
      | exact absurd h (by simp [populatedTags])

theorem c9_witness :
    ∃ tag, specTag ⟨"SYNCED", true, false, true, false⟩ = some tag ∧
      xdsTag ⟨"SYNCED", true, false, true, false⟩ = tag :=
  c9_first_populated_variant ⟨"SYNCED", true, false, true, false⟩ (by decide)

/-- C10: every node value in an extracted graph is its category tag
(`LDS`/`RDS`/`CDS`) followed by a decimal index; the renderer's color
lookup depends only on the first three characters of the label, so every
node of a category gets that category's fixed color, which is the color
and fillcolor the emitted node statement carries. -/
theorem c10_node_ids_and_colors (data : JObj) (gd : GraphData)
    (h : parseXdsRelationship data = .ok gd) :
    ∃ lds rds cds l2r r2c,
      gd = ⟨[lds, rds, cds], [l2r, r2c]⟩ ∧
      (∀ p ∈ lds, ∃ n : Nat, p.2 = "LDS" ++ Nat.repr n ∧ take3 p.2 = "LDS"
        ∧ colorOf p.2 = "#4285F4") ∧
      (∀ p ∈ rds, ∃ n : Nat, p.2 = "RDS" ++ Nat.repr n ∧ take3 p.2 = "RDS"
        ∧ colorOf p.2 = "#FBBC04") ∧
      (∀ p ∈ cds, ∃ n : Nat, p.2 = "CDS" ++ Nat.repr n ∧ take3 p.2 = "CDS"
        ∧ colorOf p.2 = "#34A853") ∧
      (∀ v w : String, take3 v = take3 w → colorOf v = colorOf w) ∧
      (∀ nm lb : String, (mkNodeStmt nm lb).color = "\\\"" ++ colorOf lb ++ "\\\""
        ∧ (mkNodeStmt nm lb).fillcolor = "\\\"" ++ colorOf lb ++ "\\\"") := by
  rcases parse_ok_inv data gd h with ⟨st, hok, rfl⟩
  refine ⟨st.lds, st.rds, st.cds, st.ldsToRds, st.rdsToCds, rfl, ?_, ?_, ?_, ?_, ?_⟩
  · intro p hp
    rcases hok.hlds p hp with ⟨n, hn⟩
    exact ⟨n, hn, by rw [hn]; exact take3_tag "LDS" _ rfl,
      by rw [hn]; exact colorOf_LDS _⟩
  · intro p hp
    rcases hok.hrds p hp with ⟨n, hn⟩
    exact ⟨n, hn, by rw [hn]; exact take3_tag "RDS" _ rfl,
      by rw [hn]; exact colorOf_RDS _⟩
  · intro p hp
    rcases hok.hcds p hp with ⟨n, hn⟩
    exact ⟨n, hn, by rw [hn]; exact take3_tag "CDS" _ rfl,
      by rw [hn]; exact colorOf_CDS _⟩
  · intro v w hvw
    rw [colorOf, colorOf, hvw]
  · intro nm lb
    exact ⟨rfl, rfl⟩

theorem c10_witness :
    ∃ lds rds cds l2r r2c,
      exampleGraph = GraphData.mk [lds, rds, cds] [l2r, r2c] ∧
      (∀ p ∈ lds, ∃ n : Nat, p.2 = "LDS" ++ Nat.repr n ∧ take3 p.2 = "LDS"
        ∧ colorOf p.2 = "#4285F4") ∧
      (∀ p ∈ rds, ∃ n : Nat, p.2 = "RDS" ++ Nat.repr n ∧ take3 p.2 = "RDS"
        ∧ colorOf p.2 = "#FBBC04") ∧
      (∀ p ∈ cds, ∃ n : Nat, p.2 = "CDS" ++ Nat.repr n ∧ take3 p.2 = "CDS"
        ∧ colorOf p.2 = "#34A853") ∧
      (∀ v w : String, take3 v = take3 w → colorOf v = colorOf w) ∧
      (∀ nm lb : String, (mkNodeStmt nm lb).color = "\\\"" ++ colorOf lb ++ "\\\""
        ∧ (mkNodeStmt nm lb).fillcolor = "\\\"" ++ colorOf lb ++ "\\\"") :=
  c10_node_ids_and_colors exampleSnapshot exampleGraph rfl
